import Mathlib

/-!
Verification development for the schema-introspection engine of `db.py`.

The repository contains two parallel implementations of the schema entities:

* `db/db.py` embeds its own `Column`, `Table`, `TableSet`, `ColumnSet`
  (schema-free, 3-field key rows, reserved attribute names `name`/`con`
  renamed with a `_` prefix), together with `DB.refresh_schema`,
  `DB.find_table` and `DB.find_column`.  This is embedded below in
  namespace `DbMod`.
* `db/table.py` / `db/column.py` hold the refactored, schema-aware
  versions (4-field key rows, reserved names `name`/`con`/`count` renamed
  with a table-name prefix, cache-mode constructor, `to_dict`
  serialization).  This is embedded below in namespace `TableMod`.

Globbing is the semantics of Python's `fnmatch.fnmatch` on a POSIX system
(case-sensitive; `os.path.normcase` is the identity there).
-/

set_option maxHeartbeats 1000000

namespace DbPy

/-- Scan a character list for the first occurrence of `c`, returning the
characters before it and the rest after it; mirrors the scan for the closing
bracket in Python's `fnmatch.translate`. -/
def splitAtChar (c : Char) : List Char → Option (List Char × List Char)
  | [] => none
  | a :: rest =>
    if a = c then some ([], rest)
    else
      match splitAtChar c rest with
      | none => none
      | some (m, r) => some (a :: m, r)

/-- The bracket scan of `fnmatch.translate`: after an opening `[`, an optional
leading `!`, then an optional literal `]` (a `]` directly after the opening or
after `!` does not close the class), then everything up to the next `]` is the
class body.  Returns the class body and the remaining pattern, or `none` when
the class is unterminated (in which case `[` is a literal character). -/
def bracketSpan : List Char → Option (List Char × List Char)
  | '!' :: ']' :: rest =>
    (splitAtChar ']' rest).map (fun x => ('!' :: ']' :: x.1, x.2))
  | '!' :: rest =>
    (splitAtChar ']' rest).map (fun x => ('!' :: x.1, x.2))
  | ']' :: rest =>
    (splitAtChar ']' rest).map (fun x => (']' :: x.1, x.2))
  | rest =>
    (splitAtChar ']' rest).map (fun x => (x.1, x.2))

/-- Membership of a character in the body of a `[...]` class: `a-b` is an
inclusive code-point range, every other character is a literal (a hyphen at
the start or the end of the body is a literal). -/
def inClass : List Char → Char → Bool
  | a :: '-' :: b :: rest, c => (a ≤ c && c ≤ b) || inClass rest c
  | a :: rest, c => (a == c) || inClass rest c
  | [], _ => false

/-- A `[...]` class test: a leading `!` negates the class body. -/
def matchClass (stuff : List Char) (c : Char) : Bool :=
  match stuff with
  | '!' :: items => !(inClass items c)
  | items => inClass items c

/-- Fuel-indexed glob matcher over character lists, mirroring the regular
expression produced by Python's `fnmatch.translate`: `*` matches any
sequence, `?` matches any single character, `[...]` matches a character
class, and every other character matches itself.  The fuel argument only
forces structural termination: every recursive call strictly decreases
`pat.length + s.length`, so `pat.length + s.length + 1` units of fuel always
suffice and the `0`-fuel branch is unreachable from `fnmatch` below. -/
def fnAux : Nat → List Char → List Char → Bool
  | 0, _, _ => false
  | _ + 1, [], s => s.isEmpty
  | f + 1, '*' :: p, s =>
    fnAux f p s ||
      (match s with
       | [] => false
       | _ :: s' => fnAux f ('*' :: p) s')
  | f + 1, '?' :: p, s =>
    (match s with
     | [] => false
     | _ :: s' => fnAux f p s')
  | f + 1, '[' :: p, s =>
    (match bracketSpan p with
     | none =>
       match s with
       | '[' :: s' => fnAux f p s'
       | _ => false
     | some (stuff, rest) =>
       match s with
       | [] => false
       | c :: s' => matchClass stuff c && fnAux f rest s')
  | f + 1, c :: p, s =>
    (match s with
     | c' :: s' => c == c' && fnAux f p s'
     | [] => false)

/-- `fnmatch name pattern` is Python's `fnmatch.fnmatch(name, pattern)`
(case-sensitive, as on POSIX). -/
def fnmatch (name pattern : String) : Bool :=
  fnAux (pattern.length + name.length + 1) pattern.data name.data

/-- Lexicographic (code-point) comparison of character lists: the order
Python's `sorted` uses on strings. -/
def charListLe : List Char → List Char → Bool
  | [], _ => true
  | _ :: _, [] => false
  | a :: as, b :: bs =>
    if a.toNat < b.toNat then true
    else if b.toNat < a.toNat then false
    else charListLe as bs

/-- Lexicographic (code-point) comparison of strings. -/
def strLe (a b : String) : Bool :=
  charListLe a.data b.data

/-- Errors a schema refresh can abort with.  `catalogQueryFailed` models a
driver exception raised by a catalog query; `danglingKeyReference` models the
`AttributeError` raised when a key row names a column that is not bound to a
`Column` attribute on the table being built (the spec's taxonomy name for
exactly that failure). -/
inductive ResolveError where
  | catalogQueryFailed (message : String)
  | danglingKeyReference (table column : String)
deriving DecidableEq

/-- Run a step function over a list of rows, aborting at the first error;
models a Python `for` loop whose body can raise. -/
def runRows {σ ρ : Type} (step : σ → ρ → Except ResolveError σ) :
    σ → List ρ → Except ResolveError σ
  | st, [] => .ok st
  | st, r :: rs =>
    match step st r with
    | .error e => .error e
    | .ok st' => runRows step st' rs

namespace TableMod

/-- A `Column` created purely as a foreign-key / reference-key entry
(`db/table.py` lines 39 and 56).  Such a column's own key lists are created
empty and never extended, so they are omitted here. -/
structure KeyColumn where
  schema : String
  table : String
  name : String
  type : String
deriving DecidableEq

/-- `db/column.py` `Column`: one column of one table plus its resolved
relationships. -/
structure Column where
  schema : String
  table : String
  name : String
  type : String
  foreign_keys : List KeyColumn
  ref_keys : List KeyColumn
deriving DecidableEq

/-- The attribute name under which a column is bound on its `Table`
(`db/table.py` lines 23-27): reserved accessor names `name`, `con`, `count`
are prefixed with the table name and an underscore. -/
def attrName (tableName colName : String) : String :=
  if colName = "name" ∨ colName = "con" ∨ colName = "count" then
    tableName ++ "_" ++ colName
  else colName

/-- The mutation-invariant part of a column (everything except its key
lists). -/
def colKey (c : Column) : String × String × String × String :=
  (c.schema, c.table, c.name, c.type)

/-- One foreign-key row as unpacked by `db/table.py` line 37:
`(column_name, foreign_table_schema, foreign_table, foreign_column)`. -/
abbrev Row4 := String × String × String × String

/-- `getattr(self, column_name)` followed by appending the new key entry to
`col.foreign_keys` (`db/table.py` lines 38-42).  The attribute bound to
`column_name` is the column bound last (later `setattr` wins), hence the
preference for a match deeper in the list.  When no column is bound under
that attribute name, `getattr`/`col.type` raises, modeled as `none`. -/
def attachForeign (tname cname fschema ftable fcolumn : String) :
    List Column → Option (List Column × KeyColumn)
  | [] => none
  | c :: rest =>
    match attachForeign tname cname fschema ftable fcolumn rest with
    | some (rest', e) => some (c :: rest', e)
    | none =>
      if attrName tname c.name = cname then
        let e : KeyColumn := ⟨fschema, ftable, fcolumn, c.type⟩
        some ({ c with foreign_keys := c.foreign_keys ++ [e] } :: rest, e)
      else none

/-- The reference-key analogue (`db/table.py` lines 54-59). -/
def attachRef (tname cname rschema rtable rcolumn : String) :
    List Column → Option (List Column × KeyColumn)
  | [] => none
  | c :: rest =>
    match attachRef tname cname rschema rtable rcolumn rest with
    | some (rest', e) => some (c :: rest', e)
    | none =>
      if attrName tname c.name = cname then
        let e : KeyColumn := ⟨rschema, rtable, rcolumn, c.type⟩
        some ({ c with ref_keys := c.ref_keys ++ [e] } :: rest, e)
      else none

/-- One iteration of the foreign-key loop: the state is the column list plus
the table-level `foreign_keys` accumulator. -/
def fkStep (tname : String) (st : List Column × List KeyColumn) (row : Row4) :
    Except ResolveError (List Column × List KeyColumn) :=
  match attachForeign tname row.1 row.2.1 row.2.2.1 row.2.2.2 st.1 with
  | none => .error (.danglingKeyReference tname row.1)
  | some (cols', e) => .ok (cols', st.2 ++ [e])

/-- One iteration of the ref-key loop. -/
def refStep (tname : String) (st : List Column × List KeyColumn) (row : Row4) :
    Except ResolveError (List Column × List KeyColumn) :=
  match attachRef tname row.1 row.2.1 row.2.2.1 row.2.2.2 st.1 with
  | none => .error (.danglingKeyReference tname row.1)
  | some (cols', e) => .ok (cols', st.2 ++ [e])

/-- `db/table.py` `Table`: `columns` is `self._columns` (after construction
finished mutating the shared `Column` objects), `foreign_keys`/`ref_keys`
the table-level `ColumnSet`s. -/
structure Table where
  schema : String
  name : String
  columns : List Column
  foreign_keys : List KeyColumn
  ref_keys : List KeyColumn
deriving DecidableEq

/-- `Table.__init__` (`db/table.py` lines 12-62) with the key rows already
fetched: the foreign-key loop runs first, then the ref-key loop; an
unresolvable `column_name` aborts construction. -/
def Table.build (schema tname : String) (cols : List Column)
    (fkRows refRows : List Row4) : Except ResolveError Table :=
  match runRows (fkStep tname) (cols, []) fkRows with
  | .error e => .error e
  | .ok (cols1, tfks) =>
    match runRows (refStep tname) (cols1, []) refRows with
    | .error e => .error e
    | .ok (cols2, trefs) => .ok ⟨schema, tname, cols2, tfks, trefs⟩

/-- One row of the synthesized `tmp_dbpy_foreign_keys` metatable
(`db/db.py` lines 1290-1303). -/
structure FkRecord where
  table : String
  column : String
  foreign_table : String
  foreign_column : String
deriving DecidableEq

/-- The per-table foreign-key catalog query of `db/queries/sqlite.py`
(`foreign_keys_for_table`): rows of `tmp_dbpy_foreign_keys` with
`table_name = t`, selected as
`(column_name, 'public', foreign_table, foreign_column)`. -/
def foreignKeysForTable (store : List FkRecord) (t : String) : List Row4 :=
  (store.filter (fun r => r.table == t)).map
    (fun r => (r.column, "public", r.foreign_table, r.foreign_column))

/-- The per-table ref-key catalog query of `db/queries/sqlite.py`
(`ref_keys_for_table`): rows with `foreign_table = t`, selected as
`(foreign_column, 'schema', table_name, column_name)`. -/
def refKeysForTable (store : List FkRecord) (t : String) : List Row4 :=
  (store.filter (fun r => r.foreign_table == t)).map
    (fun r => (r.foreign_column, "schema", r.table, r.column))

/-- A `(column_name, data_type)` pair from the catalog column listing. -/
abbrev ColSpec := String × String

/-- The freshly grouped columns a table is constructed from: one `Column`
per catalog row, key lists empty. -/
def freshColumns (schema tname : String) (specs : List ColSpec) : List Column :=
  specs.map (fun s => ⟨schema, tname, s.1, s.2, [], []⟩)

/-- Resolve every table of a schema against the same foreign-key store,
using the per-table sqlite catalog queries; any table failing to build
aborts the whole resolution. -/
def resolveTables (store : List FkRecord) :
    List (String × List ColSpec) → Except ResolveError (List Table)
  | [] => .ok []
  | (t, specs) :: rest =>
    match Table.build "public" t (freshColumns "public" t specs)
        (foreignKeysForTable store t) (refKeysForTable store t) with
    | .error e => .error e
    | .ok T =>
      match resolveTables store rest with
      | .error e => .error e
      | .ok Ts => .ok (T :: Ts)

/-- `Column.to_dict` / the dictionaries inside `ColumnSet.to_dict`
(`db/column.py` lines 192-196, 237-239): `{schema, table, name, type}`. -/
structure ColumnDict where
  schema : String
  table : String
  name : String
  type : String
deriving DecidableEq

/-- `Column.to_dict` (`db/column.py` line 196). -/
def Column.to_dict (c : Column) : ColumnDict :=
  ⟨c.schema, c.table, c.name, c.type⟩

/-- `to_dict` of a key-entry column. -/
def KeyColumn.to_dict (k : KeyColumn) : ColumnDict :=
  ⟨k.schema, k.table, k.name, k.type⟩

/-- `Table.to_dict` (`db/table.py` lines 348-351): schema, name, serialized
columns, and the serialized table-level key sets. -/
structure TableDict where
  schema : String
  name : String
  columns : List ColumnDict
  foreign_keys : List ColumnDict
  ref_keys : List ColumnDict
deriving DecidableEq

/-- `Table.to_dict`. -/
def Table.to_dict (T : Table) : TableDict :=
  ⟨T.schema, T.name, T.columns.map Column.to_dict,
   T.foreign_keys.map KeyColumn.to_dict, T.ref_keys.map KeyColumn.to_dict⟩

/-- `TableSet.to_dict` (`db/table.py` lines 404-406), flattened to the list
of table dictionaries. -/
def serializeSnapshot (snap : List Table) : List TableDict :=
  snap.map Table.to_dict

/-- Modelled from the spec: the loader that reconstructs a `Table` from a
cached serialization is not under `src/` (only the cache-mode branch of
`Table.__init__` and `to_dict` are); per §4.2 step 3a and the §6 wire format
each cached table is rebuilt, with zero catalog queries, from its stored
column rows (key lists starting empty) and its stored foreign/ref key
tuples. -/
def tableFromCache (d : TableDict) : Table :=
  ⟨d.schema, d.name,
   d.columns.map (fun cd => ⟨cd.schema, cd.table, cd.name, cd.type, [], []⟩),
   d.foreign_keys.map (fun cd => ⟨cd.schema, cd.table, cd.name, cd.type⟩),
   d.ref_keys.map (fun cd => ⟨cd.schema, cd.table, cd.name, cd.type⟩)⟩

/-- Modelled from the spec: snapshot-level cache load. -/
def snapshotFromCache (ds : List TableDict) : List Table :=
  ds.map tableFromCache

/-- The `(table, column, type)` triples of a snapshot. -/
def snapshotTriples (snap : List Table) : List (String × String × String) :=
  snap.flatMap (fun T => T.columns.map (fun c => (T.name, c.name, c.type)))

/-- The foreign-key edge set of a snapshot, at the granularity the
serialized form stores: per table, the targeted `(schema, table, column)`
plus the carried type. -/
def snapshotFkEdges (snap : List Table) :
    List (String × (String × String × String × String)) :=
  snap.flatMap (fun T => T.foreign_keys.map
    (fun k => (T.name, (k.schema, k.table, k.name, k.type))))

/-- The ref-key edge set of a snapshot, same granularity. -/
def snapshotRefEdges (snap : List Table) :
    List (String × (String × String × String × String)) :=
  snap.flatMap (fun T => T.ref_keys.map
    (fun k => (T.name, (k.schema, k.table, k.name, k.type))))

end TableMod

namespace DbMod

/-- A key-entry `Column` of the `db/db.py` module's embedded `Column` class
(created at lines 279 and 289 with empty key lists, never extended). -/
structure KeyColumn where
  table : String
  name : String
  type : String
deriving DecidableEq

/-- `db/db.py` `Column` (lines 72-87): no schema field. -/
structure Column where
  table : String
  name : String
  type : String
  foreign_keys : List KeyColumn
  ref_keys : List KeyColumn
deriving DecidableEq

/-- The attribute name a column is bound under (`db/db.py` lines 270-274):
the reserved names here are `name` and `con`, and the rename prefixes a
single underscore (not the table name). -/
def attrName (colName : String) : String :=
  if colName = "name" ∨ colName = "con" then "_" ++ colName else colName

/-- The value of one instance attribute, as far as `find_column`'s
`isinstance(..., Column)` test can observe it. -/
inductive Attr where
  | column (c : Column)
  | nonColumn
deriving DecidableEq

/-- `setattr` on a Python instance `__dict__`: updating an existing key keeps
its position, a new key is appended. -/
def dictInsert (m : List (String × Attr)) (k : String) (v : Attr) :
    List (String × Attr) :=
  if m.any (fun p => p.1 == k) then
    m.map (fun p => if p.1 == k then (k, v) else p)
  else m ++ [(k, v)]

/-- The instance attributes set by `Table.__init__` before the column loop
(`db/db.py` lines 261-269), in `__dict__` insertion order.  None of them is
a `Column`; after construction `foreign_keys` and `ref_keys` hold
`ColumnSet`s (lines 284, 294), which are not `Column` instances either.  A
column whose accessor name collides with one of these keys overwrites the
entry in place (and, for `foreign_keys`/`ref_keys`/`_cur`, makes the real
constructor crash before the table can ever be published). -/
def baseAttrs : List (String × Attr) :=
  [("name", .nonColumn), ("_con", .nonColumn), ("_cur", .nonColumn),
   ("_query_templates", .nonColumn), ("foreign_keys", .nonColumn),
   ("ref_keys", .nonColumn), ("keys_per_column", .nonColumn),
   ("_columns", .nonColumn)]

/-- The final `__dict__` of a table: base attributes, then one binding per
column under its (possibly renamed) accessor name (`db/db.py` lines
270-274). -/
def attrsOf (cols : List Column) : List (String × Attr) :=
  cols.foldl (fun m c => dictInsert m (attrName c.name) (.column c)) baseAttrs

/-- One key row as unpacked by `db/db.py` lines 277 and 287:
`(column_name, other_table, other_column)`. -/
abbrev Row3 := String × String × String

/-- `getattr(self, column_name)` + `col.foreign_keys.append(...)`
(`db/db.py` lines 278-282); `none` models the `AttributeError` when no
column is bound under `column_name`. -/
def attachForeign (cname ftable fcolumn : String) :
    List Column → Option (List Column × KeyColumn)
  | [] => none
  | c :: rest =>
    match attachForeign cname ftable fcolumn rest with
    | some (rest', e) => some (c :: rest', e)
    | none =>
      if attrName c.name = cname then
        let e : KeyColumn := ⟨ftable, fcolumn, c.type⟩
        some ({ c with foreign_keys := c.foreign_keys ++ [e] } :: rest, e)
      else none

/-- The ref-key analogue (`db/db.py` lines 287-292). -/
def attachRef (cname rtable rcolumn : String) :
    List Column → Option (List Column × KeyColumn)
  | [] => none
  | c :: rest =>
    match attachRef cname rtable rcolumn rest with
    | some (rest', e) => some (c :: rest', e)
    | none =>
      if attrName c.name = cname then
        let e : KeyColumn := ⟨rtable, rcolumn, c.type⟩
        some ({ c with ref_keys := c.ref_keys ++ [e] } :: rest, e)
      else none

/-- One iteration of the foreign-key loop of `db/db.py` `Table.__init__`. -/
def fkStep (st : List Column × List KeyColumn) (row : Row3) :
    Except ResolveError (List Column × List KeyColumn) :=
  match attachForeign row.1 row.2.1 row.2.2 st.1 with
  | none => .error (.danglingKeyReference row.1 row.1)
  | some (cols', e) => .ok (cols', st.2 ++ [e])

/-- One iteration of the ref-key loop of `db/db.py` `Table.__init__`. -/
def refStep (st : List Column × List KeyColumn) (row : Row3) :
    Except ResolveError (List Column × List KeyColumn) :=
  match attachRef row.1 row.2.1 row.2.2 st.1 with
  | none => .error (.danglingKeyReference row.1 row.1)
  | some (cols', e) => .ok (cols', st.2 ++ [e])

/-- `db/db.py` `Table` (lines 255-294): `columns` is `self._columns`,
`attrs` the final instance `__dict__`. -/
structure Table where
  name : String
  columns : List Column
  attrs : List (String × Attr)
  foreign_keys : List KeyColumn
  ref_keys : List KeyColumn
deriving DecidableEq

/-- The catalog queries `DB.refresh_schema` / `Table.__init__` issue;
`.error` models a driver exception raised by `execute`. -/
structure Catalog where
  schemaQuery : Except String (List Row3)
  foreignKeysQuery : String → Except String (List Row3)
  refKeysQuery : String → Except String (List Row3)

/-- `db/db.py` `Table.__init__` for one table: foreign-key query, foreign-key
loop, ref-key query, ref-key loop, in that order, each able to abort. -/
def buildFromCatalog (cat : Catalog) (t : String) (cols : List Column) :
    Except ResolveError Table :=
  match cat.foreignKeysQuery t with
  | .error m => .error (.catalogQueryFailed m)
  | .ok fkRows =>
    match runRows fkStep (cols, []) fkRows with
    | .error e => .error e
    | .ok (cols1, tfks) =>
      match cat.refKeysQuery t with
      | .error m => .error (.catalogQueryFailed m)
      | .ok refRows =>
        match runRows refStep (cols1, []) refRows with
        | .error e => .error e
        | .ok (cols2, trefs) => .ok ⟨t, cols2, attrsOf cols2, tfks, trefs⟩

/-- Python's `sorted` on strings (lexicographic by code point). -/
def sortStrings (l : List String) : List String :=
  List.insertionSort (fun a b => strLe a b = true) l

/-- `sorted(tables.keys())` of `db/db.py` line 1332: the distinct table
names of the column listing, sorted. -/
def tableNames (rows : List Row3) : List String :=
  sortStrings (rows.map (fun r => r.1)).dedup

/-- The column group of one table (`db/db.py` lines 1327-1330): one `Column`
per catalog row naming that table, in catalog row order. -/
def columnsFor (t : String) (rows : List Row3) : List Column :=
  (rows.filter (fun r => r.1 == t)).map (fun r => ⟨t, r.2.1, r.2.2, [], []⟩)

/-- Build each table of the sorted name list (`db/db.py` line 1332). -/
def buildAll (cat : Catalog) (rows : List Row3) :
    List String → Except ResolveError (List Table)
  | [] => .ok []
  | t :: ts =>
    match buildFromCatalog cat t (columnsFor t rows) with
    | .error e => .error e
    | .ok T =>
      match buildAll cat rows ts with
      | .error e => .error e
      | .ok Ts => .ok (T :: Ts)

/-- `DB.refresh_schema` (`db/db.py` lines 1308-1333) up to the final
assignment: column listing, grouping, and table construction. -/
def refreshSchema (cat : Catalog) : Except ResolveError (List Table) :=
  match cat.schemaQuery with
  | .error m => .error (.catalogQueryFailed m)
  | .ok rows => buildAll cat rows (tableNames rows)

/-- The snapshot visible after a refresh attempt: `self.tables` is assigned
only by the last line of `refresh_schema`, so an aborted refresh leaves the
previous snapshot in place (and, everything here being pure values, the old
`Table`/`Column` objects untouched). -/
def publish (old : List Table) (cat : Catalog) : List Table :=
  match refreshSchema cat with
  | .ok snap => snap
  | .error _ => old

/-- `DB.find_table` (`db/db.py` lines 918-947): the tables of the snapshot
whose name matches the glob. -/
def findTable (tables : List Table) (search : String) : List Table :=
  tables.filter (fun T => fnmatch T.name search)

/-- The `data_type` argument of `find_column`: absent, one string, or a list
of strings. -/
inductive DataTypeArg where
  | none
  | str (s : String)
  | list (l : List String)

/-- `db/db.py` lines 1010-1011: a single string becomes a one-element list;
`None` and the empty list are both falsy for the `if data_type` test. -/
def normalizeDataType : DataTypeArg → List String
  | .none => []
  | .str s => [s]
  | .list l => l

/-- `DB.find_column` (`db/db.py` lines 1010-1020): for every table, walk
`vars(table)` in insertion order; an attribute whose NAME matches the glob
is appended iff it is a `Column` instance and, when the (truthy) type filter
is present, its `type` is one of the filter strings. -/
def findColumn (tables : List Table) (search : String)
    (dataType : DataTypeArg) : List Column :=
  let dt := normalizeDataType dataType
  tables.flatMap (fun T => T.attrs.filterMap (fun p =>
    if fnmatch p.1 search then
      match p.2 with
      | .column c =>
        if !dt.isEmpty && !(dt.contains c.type) then none else some c
      | .nonColumn => none
    else none))

end DbMod

/-! Concrete fixtures.  `demoCatalog` is the three-table subset of the demo
database used by the spec's scenario: `Artist(ArtistId, Name)`,
`Album(AlbumId, Title, ArtistId → Artist.ArtistId)`,
`Track(TrackId, Name, AlbumId → Album.AlbumId)`. -/

/-- Column listing rows `(table_name, column_name, data_type)` for the demo
schema, in catalog order. -/
def demoRows : List DbMod.Row3 :=
  [("Album", "AlbumId", "INTEGER"), ("Album", "Title", "NVARCHAR(160)"),
   ("Album", "ArtistId", "INTEGER"),
   ("Artist", "ArtistId", "INTEGER"), ("Artist", "Name", "NVARCHAR(120)"),
   ("Track", "TrackId", "INTEGER"), ("Track", "Name", "NVARCHAR(200)"),
   ("Track", "AlbumId", "INTEGER")]

/-- Per-table foreign-key rows of the demo schema. -/
def demoFkRows (t : String) : List DbMod.Row3 :=
  if t = "Album" then [("ArtistId", "Artist", "ArtistId")]
  else if t = "Track" then [("AlbumId", "Album", "AlbumId")]
  else []

/-- Per-table ref-key rows of the demo schema. -/
def demoRefRows (t : String) : List DbMod.Row3 :=
  if t = "Artist" then [("ArtistId", "Album", "ArtistId")]
  else if t = "Album" then [("AlbumId", "Track", "AlbumId")]
  else []

/-- The demo catalog: every query succeeds. -/
def demoCatalog : DbMod.Catalog :=
  ⟨.ok demoRows, fun t => .ok (demoFkRows t), fun t => .ok (demoRefRows t)⟩

/-- The snapshot resolved from the demo catalog. -/
def demoTables : List DbMod.Table :=
  match DbMod.refreshSchema demoCatalog with
  | .ok snap => snap
  | .error _ => []

/-- A catalog whose single table `Widget` has a column literally named
`name`, colliding with the reserved `Table.name` accessor. -/
def renamedCatalog : DbMod.Catalog :=
  ⟨.ok [("Widget", "name", "TEXT"), ("Widget", "id", "INTEGER")],
   fun _ => .ok [], fun _ => .ok []⟩

/-- The snapshot resolved from `renamedCatalog`. -/
def renamedTables : List DbMod.Table :=
  match DbMod.refreshSchema renamedCatalog with
  | .ok snap => snap
  | .error _ => []

/-- A catalog identical to `demoCatalog` except that the ref-key query for
`Artist` fails after the column listing and all foreign-key queries
succeeded. -/
def failingCatalog : DbMod.Catalog :=
  ⟨.ok demoRows, fun t => .ok (demoFkRows t),
   fun t => if t = "Artist" then .error "connection reset" else .ok (demoRefRows t)⟩

namespace TableMod

/-- How one column may change between the start and the end of a table
construction processing `fkRows` and `refRows`: its identity fields are
unchanged, its key lists only grow, and every new key entry comes from a
processed row naming the column by its accessor name and carries the
column's own type. -/
def Evolves (tname : String) (fkRows refRows : List Row4) (c c' : Column) : Prop :=
  c'.schema = c.schema ∧ c'.table = c.table ∧ c'.name = c.name ∧ c'.type = c.type ∧
  (∀ e ∈ c.foreign_keys, e ∈ c'.foreign_keys) ∧
  (∀ e ∈ c.ref_keys, e ∈ c'.ref_keys) ∧
  (∀ e ∈ c'.foreign_keys, e ∈ c.foreign_keys ∨
    ((attrName tname c.name, e.schema, e.table, e.name) ∈ fkRows ∧ e.type = c.type)) ∧
  (∀ e ∈ c'.ref_keys, e ∈ c.ref_keys ∨
    ((attrName tname c.name, e.schema, e.table, e.name) ∈ refRows ∧ e.type = c.type))

/-- The foreign-key store of the `C1` counterexample: a single edge whose
target table `B` is not part of the schema. -/
def cxStore : List FkRecord := [⟨"A", "a", "B", "b"⟩]

/-- The single-table schema of the `C1` counterexample. -/
def cxTables : List (String × List ColSpec) := [("A", [("a", "INTEGER")])]

/-- What resolving `cxTables` against `cxStore` produces: table `A` carries
the foreign-key edge to `B.b`, and no table named `B` exists. -/
def cxSnap : List Table :=
  [⟨"public", "A",
    [⟨"public", "A", "a", "INTEGER", [⟨"public", "B", "b", "INTEGER"⟩], []⟩],
    [⟨"public", "B", "b", "INTEGER"⟩], []⟩]

/-- Foreign-key store of the two-table demo schema
(`Album.ArtistId → Artist.ArtistId`). -/
def tmStore : List FkRecord := [⟨"Album", "ArtistId", "Artist", "ArtistId"⟩]

/-- Column listings of the two-table demo schema. -/
def tmTables : List (String × List ColSpec) :=
  [("Album", [("AlbumId", "INTEGER"), ("ArtistId", "INTEGER")]),
   ("Artist", [("ArtistId", "INTEGER"), ("Name", "NVARCHAR(120)")])]

/-- The resolved two-table demo snapshot. -/
def tmSnap : List Table :=
  [⟨"public", "Album",
    [⟨"public", "Album", "AlbumId", "INTEGER", [], []⟩,
     ⟨"public", "Album", "ArtistId", "INTEGER",
      [⟨"public", "Artist", "ArtistId", "INTEGER"⟩], []⟩],
    [⟨"public", "Artist", "ArtistId", "INTEGER"⟩], []⟩,
   ⟨"public", "Artist",
    [⟨"public", "Artist", "ArtistId", "INTEGER", [],
      [⟨"schema", "Album", "ArtistId", "INTEGER"⟩]⟩,
     ⟨"public", "Artist", "Name", "NVARCHAR(120)", [], []⟩],
    [], [⟨"schema", "Album", "ArtistId", "INTEGER"⟩]⟩]

/-- A store with a foreign-key row naming a column (`y`) that the schema's
only table does not have. -/
def badStore : List FkRecord := [⟨"T", "y", "Z", "z"⟩]

/-- The single-table schema the `badStore` row dangles against. -/
def badTables : List (String × List ColSpec) := [("T", [("x", "INTEGER")])]

end TableMod

namespace DbMod

/-- Identity fields of a `db/db.py` column are unchanged by the key loops. -/
def sameShape (c c' : Column) : Prop :=
  c'.table = c.table ∧ c'.name = c.name ∧ c'.type = c.type

end DbMod

/-! ### Helper lemmas: globbing, orders, `Forall₂` transport -/

/-- With at least `s.length + 2` units of fuel the pattern `*` matches any
string. -/
theorem fnAux_star_all : ∀ (s : List Char) (f : Nat), s.length + 2 ≤ f →
    fnAux f ['*'] s = true := by
  intro s
  induction s with
  | nil =>
    intro f hf
    match f, hf with
    | (g + 2), _ => simp [fnAux]
  | cons c s ih =>
    intro f hf
    match f, hf with
    | (g + 1), hf =>
      have : s.length + 2 ≤ g := by
        simp only [List.length_cons] at hf
        omega
      simp [fnAux, ih g this]

/-- The pattern `*` matches every table/column name. -/
theorem fnmatch_star (s : String) : fnmatch s "*" = true := by
  have hp : ("*" : String).data = ['*'] := rfl
  have hl : ("*" : String).length = 1 := rfl
  simp only [fnmatch, hp, hl]
  exact fnAux_star_all s.data (1 + s.length + 1) (by
    have : s.length = s.data.length := rfl
    omega)

/-- Transport a member of the left list of a `Forall₂` to the right. -/
theorem forall2_mem_left {α β : Type} {R : α → β → Prop} {l : List α}
    {l' : List β} (h : List.Forall₂ R l l') :
    ∀ {a}, a ∈ l → ∃ b ∈ l', R a b := by
  induction h with
  | nil => intro a ha; cases ha
  | cons hR hF ih =>
    intro a ha
    rcases List.mem_cons.mp ha with rfl | ha
    · exact ⟨_, List.mem_cons_self _ _, hR⟩
    · obtain ⟨b, hb, hRb⟩ := ih ha
      exact ⟨b, List.mem_cons_of_mem _ hb, hRb⟩

/-- Transport a member of the right list of a `Forall₂` to the left. -/
theorem forall2_mem_right {α β : Type} {R : α → β → Prop} {l : List α}
    {l' : List β} (h : List.Forall₂ R l l') :
    ∀ {b}, b ∈ l' → ∃ a ∈ l, R a b := by
  induction h with
  | nil => intro b hb; cases hb
  | cons hR hF ih =>
    intro b hb
    rcases List.mem_cons.mp hb with rfl | hb
    · exact ⟨_, List.mem_cons_self _ _, hR⟩
    · obtain ⟨a, ha, hRa⟩ := ih hb
      exact ⟨a, List.mem_cons_of_mem _ ha, hRa⟩

/-- Compose two `Forall₂`s pointwise. -/
theorem forall2_trans {α : Type} {R S T : α → α → Prop}
    (h : ∀ a b c, R a b → S b c → T a c) :
    ∀ {l₁ l₂ l₃ : List α}, List.Forall₂ R l₁ l₂ → List.Forall₂ S l₂ l₃ →
      List.Forall₂ T l₁ l₃ := by
  intro l₁ l₂ l₃ h12
  induction h12 generalizing l₃ with
  | nil => intro h23; cases h23; exact .nil
  | cons hR hF ih =>
    intro h23
    cases h23 with
    | cons hS hF' => exact .cons (h _ _ _ hR hS) (ih hF')

/-- A `Forall₂` whose relation fixes `f` yields equal `map f` images. -/
theorem forall2_map_eq {α β : Type} {R : α → α → Prop} {f : α → β}
    (hf : ∀ a b, R a b → f b = f a) :
    ∀ {l l' : List α}, List.Forall₂ R l l' → l'.map f = l.map f := by
  intro l l' h
  induction h with
  | nil => rfl
  | cons hR hF ih => simp [ih, hf _ _ hR]

/-- `charListLe` is total. -/
theorem charListLe_total : ∀ (as bs : List Char),
    charListLe as bs = true ∨ charListLe bs as = true := by
  intro as
  induction as with
  | nil => intro bs; left; cases bs <;> rfl
  | cons a as ih =>
    intro bs
    cases bs with
    | nil => right; rfl
    | cons b bs =>
      simp only [charListLe]
      rcases Nat.lt_trichotomy a.toNat b.toNat with h | h | h
      · left; simp [h]
      · have h1 : ¬ a.toNat < b.toNat := by omega
        have h2 : ¬ b.toNat < a.toNat := by omega
        simp only [h1, h2, if_false, if_true, ite_false, ite_true]
        simpa using ih bs
      · right; simp [h]

/-- `charListLe` is transitive. -/
theorem charListLe_trans : ∀ (as bs cs : List Char),
    charListLe as bs = true → charListLe bs cs = true →
    charListLe as cs = true := by
  intro as
  induction as with
  | nil => intro bs cs _ _; cases cs <;> rfl
  | cons a as ih =>
    intro bs cs h1 h2
    cases bs with
    | nil => simp [charListLe] at h1
    | cons b bs =>
      cases cs with
      | nil => simp [charListLe] at h2
      | cons c cs =>
        simp only [charListLe] at h1 h2 ⊢
        rcases Nat.lt_trichotomy a.toNat b.toNat with hab | hab | hab
        · rcases Nat.lt_trichotomy b.toNat c.toNat with hbc | hbc | hbc
          · simp [show a.toNat < c.toNat by omega]
          · simp [show a.toNat < c.toNat by omega]
          · simp [show ¬ b.toNat < c.toNat by omega, hbc] at h2
        · rcases Nat.lt_trichotomy b.toNat c.toNat with hbc | hbc | hbc
          · simp [show a.toNat < c.toNat by omega]
          · have g1 : ¬ a.toNat < c.toNat := by omega
            have g2 : ¬ c.toNat < a.toNat := by omega
            simp only [g1, ite_false, g2]
            have e1 : ¬ a.toNat < b.toNat := by omega
            have e2 : ¬ b.toNat < a.toNat := by omega
            have f1 : ¬ b.toNat < c.toNat := by omega
            have f2 : ¬ c.toNat < b.toNat := by omega
            simp only [e1, e2, ite_false] at h1
            simp only [f1, f2, ite_false] at h2
            simpa using ih bs cs (by simpa using h1) (by simpa using h2)
          · simp [show ¬ b.toNat < c.toNat by omega, hbc] at h2
        · simp [show ¬ a.toNat < b.toNat by omega, hab] at h1

instance : IsTotal String (fun a b => strLe a b = true) :=
  ⟨fun a b => charListLe_total a.data b.data⟩

instance : IsTrans String (fun a b => strLe a b = true) :=
  ⟨fun a b c => charListLe_trans a.data b.data c.data⟩

/-- `sortStrings` output is sorted for `strLe`. -/
theorem sortStrings_sorted (l : List String) :
    (DbMod.sortStrings l).Pairwise (fun a b => strLe a b = true) :=
  List.sorted_insertionSort _ l

/-- `sortStrings` permutes its input. -/
theorem sortStrings_perm (l : List String) : List.Perm (DbMod.sortStrings l) l :=
  List.perm_insertionSort _ l

/-- Membership is invariant under `sortStrings`. -/
theorem sortStrings_mem {a : String} {l : List String} :
    a ∈ DbMod.sortStrings l ↔ a ∈ l :=
  (sortStrings_perm l).mem_iff

/-! ### `table.py` construction lemmas -/

namespace TableMod

/-- What one successful `attachForeign` does: all columns keep their
identity, exactly one column (bound last under the accessor name) gets the
new entry appended, and the returned entry carries that column's type. -/
theorem attachForeign_spec {tname cname fs ft fc : String} :
    ∀ {cols cols' : List Column} {e : KeyColumn},
      attachForeign tname cname fs ft fc cols = some (cols', e) →
      List.Forall₂ (fun c c' => c' = c ∨
          (attrName tname c.name = cname ∧
           c' = { c with foreign_keys := c.foreign_keys ++ [⟨fs, ft, fc, c.type⟩] }))
        cols cols' ∧
      ∃ c ∈ cols, attrName tname c.name = cname ∧ e = ⟨fs, ft, fc, c.type⟩ ∧
        { c with foreign_keys := c.foreign_keys ++ [e] } ∈ cols' := by
  intro cols
  induction cols with
  | nil => intro cols' e h; simp [attachForeign] at h
  | cons c rest ih =>
    intro cols' e h
    cases hrec : attachForeign tname cname fs ft fc rest with
    | some pr =>
      obtain ⟨rest', e'⟩ := pr
      simp only [attachForeign, hrec] at h
      obtain ⟨rfl, rfl⟩ : c :: rest' = cols' ∧ e' = e := by
        simpa using h
      obtain ⟨hF, c₀, hc₀, hattr, rfl, hmem⟩ := ih hrec
      exact ⟨.cons (Or.inl rfl) hF,
        c₀, List.mem_cons_of_mem _ hc₀, hattr, rfl, List.mem_cons_of_mem _ hmem⟩
    | none =>
      simp only [attachForeign, hrec] at h
      split at h
      · next hattr =>
        obtain ⟨rfl, rfl⟩ :
            ({ c with foreign_keys := c.foreign_keys ++ [⟨fs, ft, fc, c.type⟩] } :: rest
              = cols') ∧ (⟨fs, ft, fc, c.type⟩ : KeyColumn) = e := by
          simpa using h
        refine ⟨.cons (Or.inr ⟨hattr, rfl⟩)
          (List.forall₂_same.mpr (fun x _ => Or.inl rfl)), ?_⟩
        exact ⟨c, List.mem_cons_self _ _, hattr, rfl, List.mem_cons_self _ _⟩
      · cases h

/-- The reference-key analogue of `attachForeign_spec`. -/
theorem attachRef_spec {tname cname rs rt rc : String} :
    ∀ {cols cols' : List Column} {e : KeyColumn},
      attachRef tname cname rs rt rc cols = some (cols', e) →
      List.Forall₂ (fun c c' => c' = c ∨
          (attrName tname c.name = cname ∧
           c' = { c with ref_keys := c.ref_keys ++ [⟨rs, rt, rc, c.type⟩] }))
        cols cols' ∧
      ∃ c ∈ cols, attrName tname c.name = cname ∧ e = ⟨rs, rt, rc, c.type⟩ ∧
        { c with ref_keys := c.ref_keys ++ [e] } ∈ cols' := by
  intro cols
  induction cols with
  | nil => intro cols' e h; simp [attachRef] at h
  | cons c rest ih =>
    intro cols' e h
    cases hrec : attachRef tname cname rs rt rc rest with
    | some pr =>
      obtain ⟨rest', e'⟩ := pr
      simp only [attachRef, hrec] at h
      obtain ⟨rfl, rfl⟩ : c :: rest' = cols' ∧ e' = e := by
        simpa using h
      obtain ⟨hF, c₀, hc₀, hattr, rfl, hmem⟩ := ih hrec
      exact ⟨.cons (Or.inl rfl) hF,
        c₀, List.mem_cons_of_mem _ hc₀, hattr, rfl, List.mem_cons_of_mem _ hmem⟩
    | none =>
      simp only [attachRef, hrec] at h
      split at h
      · next hattr =>
        obtain ⟨rfl, rfl⟩ :
            ({ c with ref_keys := c.ref_keys ++ [⟨rs, rt, rc, c.type⟩] } :: rest
              = cols') ∧ (⟨rs, rt, rc, c.type⟩ : KeyColumn) = e := by
          simpa using h
        refine ⟨.cons (Or.inr ⟨hattr, rfl⟩)
          (List.forall₂_same.mpr (fun x _ => Or.inl rfl)), ?_⟩
        exact ⟨c, List.mem_cons_self _ _, hattr, rfl, List.mem_cons_self _ _⟩
      · cases h

/-- A failing `attachForeign` means no column is bound under the accessor
name. -/
theorem attachForeign_none {tname cname fs ft fc : String} :
    ∀ {cols : List Column},
      attachForeign tname cname fs ft fc cols = none ↔
        ∀ c ∈ cols, attrName tname c.name ≠ cname := by
  intro cols
  induction cols with
  | nil => simp [attachForeign]
  | cons c rest ih =>
    cases hrec : attachForeign tname cname fs ft fc rest with
    | some pr =>
      simp only [attachForeign, hrec]
      constructor
      · intro h; cases h
      · intro h
        exact absurd hrec (by
          rw [ih.2 (fun d hd => h d (List.mem_cons_of_mem _ hd))]
          simp)
    | none =>
      simp only [attachForeign, hrec]
      constructor
      · intro h
        split at h
        · cases h
        · next hne =>
          intro d hd
          rcases List.mem_cons.mp hd with rfl | hd
          · exact hne
          · exact ih.mp hrec d hd
      · intro h
        rw [if_neg (h c (List.mem_cons_self _ _))]

/-- A failing `attachRef` means no column is bound under the accessor
name. -/
theorem attachRef_none {tname cname rs rt rc : String} :
    ∀ {cols : List Column},
      attachRef tname cname rs rt rc cols = none ↔
        ∀ c ∈ cols, attrName tname c.name ≠ cname := by
  intro cols
  induction cols with
  | nil => simp [attachRef]
  | cons c rest ih =>
    cases hrec : attachRef tname cname rs rt rc rest with
    | some pr =>
      simp only [attachRef, hrec]
      constructor
      · intro h; cases h
      · intro h
        exact absurd hrec (by
          rw [ih.2 (fun d hd => h d (List.mem_cons_of_mem _ hd))]
          simp)
    | none =>
      simp only [attachRef, hrec]
      constructor
      · intro h
        split at h
        · cases h
        · next hne =>
          intro d hd
          rcases List.mem_cons.mp hd with rfl | hd
          · exact hne
          · exact ih.mp hrec d hd
      · intro h
        rw [if_neg (h c (List.mem_cons_self _ _))]

/-- `Evolves` is reflexive. -/
theorem evolves_refl (tname : String) (fkRows refRows : List Row4) (c : Column) :
    Evolves tname fkRows refRows c c :=
  ⟨rfl, rfl, rfl, rfl, fun _ he => he, fun _ he => he,
   fun _ he => Or.inl he, fun _ he => Or.inl he⟩

/-- `Evolves` is monotone in the processed row lists. -/
theorem evolves_mono {tname : String} {f f' r r' : List Row4} {c c' : Column}
    (hf : ∀ x ∈ f, x ∈ f') (hr : ∀ x ∈ r, x ∈ r')
    (h : Evolves tname f r c c') : Evolves tname f' r' c c' := by
  obtain ⟨h1, h2, h3, h4, h5, h6, h7, h8⟩ := h
  refine ⟨h1, h2, h3, h4, h5, h6, ?_, ?_⟩
  · intro e he
    rcases h7 e he with he' | ⟨hrow, hty⟩
    · exact Or.inl he'
    · exact Or.inr ⟨hf _ hrow, hty⟩
  · intro e he
    rcases h8 e he with he' | ⟨hrow, hty⟩
    · exact Or.inl he'
    · exact Or.inr ⟨hr _ hrow, hty⟩

/-- One foreign-key attach step composed with an evolution over the
remaining rows evolves over all the rows. -/
theorem evolves_step_fk {tname : String} {r : Row4} {rs : List Row4}
    {a b c : Column}
    (h1 : b = a ∨ (attrName tname a.name = r.1 ∧
      b = { a with foreign_keys :=
              a.foreign_keys ++ [⟨r.2.1, r.2.2.1, r.2.2.2, a.type⟩] }))
    (h2 : Evolves tname rs [] b c) : Evolves tname (r :: rs) [] a c := by
  rcases h1 with rfl | ⟨hattr, rfl⟩
  · exact evolves_mono (fun x hx => List.mem_cons_of_mem _ hx) (fun x hx => hx) h2
  · obtain ⟨h1, h2', h3, h4, h5, h6, h7, h8⟩ := h2
    obtain ⟨r1, r2, r3, r4⟩ := r
    refine ⟨h1, h2', h3, h4, ?_, h6, ?_, ?_⟩
    · intro e he
      exact h5 e (List.mem_append_left _ he)
    · intro e he
      rcases h7 e he with he' | ⟨hrow, hty⟩
      · rcases List.mem_append.mp he' with he'' | he''
        · exact Or.inl he''
        · rcases List.mem_singleton.mp he'' with rfl
          exact Or.inr ⟨by simp [hattr], rfl⟩
      · exact Or.inr ⟨List.mem_cons_of_mem _ hrow, hty⟩
    · intro e he
      rcases h8 e he with he' | ⟨hrow, _⟩
      · exact Or.inl he'
      · cases hrow

/-- One ref-key attach step composed with an evolution over the remaining
rows evolves over all the rows. -/
theorem evolves_step_ref {tname : String} {r : Row4} {rs : List Row4}
    {a b c : Column}
    (h1 : b = a ∨ (attrName tname a.name = r.1 ∧
      b = { a with ref_keys :=
              a.ref_keys ++ [⟨r.2.1, r.2.2.1, r.2.2.2, a.type⟩] }))
    (h2 : Evolves tname [] rs b c) : Evolves tname [] (r :: rs) a c := by
  rcases h1 with rfl | ⟨hattr, rfl⟩
  · exact evolves_mono (fun x hx => hx) (fun x hx => List.mem_cons_of_mem _ hx) h2
  · obtain ⟨h1, h2', h3, h4, h5, h6, h7, h8⟩ := h2
    obtain ⟨r1, r2, r3, r4⟩ := r
    refine ⟨h1, h2', h3, h4, h5, ?_, ?_, ?_⟩
    · intro e he
      exact h6 e (List.mem_append_left _ he)
    · intro e he
      rcases h7 e he with he' | ⟨hrow, _⟩
      · exact Or.inl he'
      · cases hrow
    · intro e he
      rcases h8 e he with he' | ⟨hrow, hty⟩
      · rcases List.mem_append.mp he' with he'' | he''
        · exact Or.inl he''
        · rcases List.mem_singleton.mp he'' with rfl
          exact Or.inr ⟨by simp [hattr], rfl⟩
      · exact Or.inr ⟨List.mem_cons_of_mem _ hrow, hty⟩

/-- A successful foreign-key loop evolves every column over its rows. -/
theorem runFk_evolves {tname : String} :
    ∀ {rows : List Row4} {st st' : List Column × List KeyColumn},
      runRows (fkStep tname) st rows = .ok st' →
      List.Forall₂ (Evolves tname rows []) st.1 st'.1 := by
  intro rows
  induction rows with
  | nil =>
    intro st st' h
    obtain rfl : st = st' := by simpa [runRows] using h
    exact List.forall₂_same.mpr (fun c _ => evolves_refl tname [] [] c)
  | cons r rs ih =>
    intro st st' h
    simp only [runRows] at h
    cases hstep : fkStep tname st r with
    | error e => rw [hstep] at h; cases h
    | ok st₁ =>
      rw [hstep] at h
      simp only [fkStep] at hstep
      cases hat : attachForeign tname r.1 r.2.1 r.2.2.1 r.2.2.2 st.1 with
      | none => rw [hat] at hstep; cases hstep
      | some pr =>
        obtain ⟨cols₁, e₁⟩ := pr
        rw [hat] at hstep
        obtain rfl : (cols₁, st.2 ++ [e₁]) = st₁ := by simpa using hstep
        have hF := (attachForeign_spec hat).1
        exact forall2_trans (S := Evolves tname rs []) (T := Evolves tname (r :: rs) [])
          (fun a b c hab hbc => evolves_step_fk hab hbc) hF (ih h)

/-- A successful ref-key loop evolves every column over its rows. -/
theorem runRef_evolves {tname : String} :
    ∀ {rows : List Row4} {st st' : List Column × List KeyColumn},
      runRows (refStep tname) st rows = .ok st' →
      List.Forall₂ (Evolves tname [] rows) st.1 st'.1 := by
  intro rows
  induction rows with
  | nil =>
    intro st st' h
    obtain rfl : st = st' := by simpa [runRows] using h
    exact List.forall₂_same.mpr (fun c _ => evolves_refl tname [] [] c)
  | cons r rs ih =>
    intro st st' h
    simp only [runRows] at h
    cases hstep : refStep tname st r with
    | error e => rw [hstep] at h; cases h
    | ok st₁ =>
      rw [hstep] at h
      simp only [refStep] at hstep
      cases hat : attachRef tname r.1 r.2.1 r.2.2.1 r.2.2.2 st.1 with
      | none => rw [hat] at hstep; cases hstep
      | some pr =>
        obtain ⟨cols₁, e₁⟩ := pr
        rw [hat] at hstep
        obtain rfl : (cols₁, st.2 ++ [e₁]) = st₁ := by simpa using hstep
        have hF := (attachRef_spec hat).1
        exact forall2_trans (S := Evolves tname [] rs) (T := Evolves tname [] (r :: rs))
          (fun a b c hab hbc => evolves_step_ref hab hbc) hF (ih h)

/-- Two successive evolutions (first foreign keys, then ref keys) compose. -/
theorem evolves_comp {tname : String} {fkRows refRows : List Row4}
    {a b c : Column} (h1 : Evolves tname fkRows [] a b)
    (h2 : Evolves tname [] refRows b c) :
    Evolves tname fkRows refRows a c := by
  obtain ⟨a1, a2, a3, a4, a5, a6, a7, a8⟩ := h1
  obtain ⟨b1, b2, b3, b4, b5, b6, b7, b8⟩ := h2
  refine ⟨b1.trans a1, b2.trans a2, b3.trans a3, b4.trans a4,
    fun e he => b5 e (a5 e he), fun e he => b6 e (a6 e he), ?_, ?_⟩
  · intro e he
    rcases b7 e he with he' | ⟨hrow, _⟩
    · exact a7 e he'
    · cases hrow
  · intro e he
    rcases b8 e he with he' | ⟨hrow, hty⟩
    · rcases a8 e he' with he'' | ⟨hrow', _⟩
      · exact Or.inl he''
      · cases hrow'
    · exact Or.inr ⟨by rwa [a3] at hrow, by rwa [a4] at hty⟩

/-- Every processed foreign-key row ends up attached: some final column is
bound under the row's accessor name and carries the row's entry (with the
column's own type). -/
theorem runFk_complete {tname : String} :
    ∀ {rows : List Row4} {st st' : List Column × List KeyColumn},
      runRows (fkStep tname) st rows = .ok st' →
      ∀ r ∈ rows, ∃ c' ∈ st'.1, attrName tname c'.name = r.1 ∧
        (⟨r.2.1, r.2.2.1, r.2.2.2, c'.type⟩ : KeyColumn) ∈ c'.foreign_keys := by
  intro rows
  induction rows with
  | nil => intro st st' _ r hr; cases hr
  | cons r₀ rs ih =>
    intro st st' h r hr
    simp only [runRows] at h
    cases hstep : fkStep tname st r₀ with
    | error e => rw [hstep] at h; cases h
    | ok st₁ =>
      rw [hstep] at h
      rcases List.mem_cons.mp hr with rfl | hr
      · simp only [fkStep] at hstep
        cases hat : attachForeign tname r.1 r.2.1 r.2.2.1 r.2.2.2 st.1 with
        | none => rw [hat] at hstep; cases hstep
        | some pr =>
          obtain ⟨cols₁, e₁⟩ := pr
          rw [hat] at hstep
          obtain rfl : (cols₁, st.2 ++ [e₁]) = st₁ := by simpa using hstep
          obtain ⟨_, c₀, _, hattr, rfl, hmem⟩ := attachForeign_spec hat
          obtain ⟨c', hc', hev⟩ := forall2_mem_left (runFk_evolves h) hmem
          obtain ⟨_, _, hn, ht, hfwd, _, _, _⟩ := hev
          refine ⟨c', hc', ?_, ?_⟩
          · simpa [hn] using hattr
          · have : (⟨r.2.1, r.2.2.1, r.2.2.2, c₀.type⟩ : KeyColumn) ∈
                c₀.foreign_keys ++ [⟨r.2.1, r.2.2.1, r.2.2.2, c₀.type⟩] := by simp
            have := hfwd _ this
            rwa [ht]
      · exact ih h r hr

/-- Every processed ref-key row ends up attached. -/
theorem runRef_complete {tname : String} :
    ∀ {rows : List Row4} {st st' : List Column × List KeyColumn},
      runRows (refStep tname) st rows = .ok st' →
      ∀ r ∈ rows, ∃ c' ∈ st'.1, attrName tname c'.name = r.1 ∧
        (⟨r.2.1, r.2.2.1, r.2.2.2, c'.type⟩ : KeyColumn) ∈ c'.ref_keys := by
  intro rows
  induction rows with
  | nil => intro st st' _ r hr; cases hr
  | cons r₀ rs ih =>
    intro st st' h r hr
    simp only [runRows] at h
    cases hstep : refStep tname st r₀ with
    | error e => rw [hstep] at h; cases h
    | ok st₁ =>
      rw [hstep] at h
      rcases List.mem_cons.mp hr with rfl | hr
      · simp only [refStep] at hstep
        cases hat : attachRef tname r.1 r.2.1 r.2.2.1 r.2.2.2 st.1 with
        | none => rw [hat] at hstep; cases hstep
        | some pr =>
          obtain ⟨cols₁, e₁⟩ := pr
          rw [hat] at hstep
          obtain rfl : (cols₁, st.2 ++ [e₁]) = st₁ := by simpa using hstep
          obtain ⟨_, c₀, _, hattr, rfl, hmem⟩ := attachRef_spec hat
          obtain ⟨c', hc', hev⟩ := forall2_mem_left (runRef_evolves h) hmem
          obtain ⟨_, _, hn, ht, _, hfwd, _, _⟩ := hev
          refine ⟨c', hc', ?_, ?_⟩
          · simpa [hn] using hattr
          · have : (⟨r.2.1, r.2.2.1, r.2.2.2, c₀.type⟩ : KeyColumn) ∈
                c₀.ref_keys ++ [⟨r.2.1, r.2.2.1, r.2.2.2, c₀.type⟩] := by simp
            have := hfwd _ this
            rwa [ht]
      · exact ih h r hr

/-- Every entry of the table-level foreign-key accumulator also lives in
some final column's `foreign_keys`. -/
theorem runFk_acc {tname : String} :
    ∀ {rows : List Row4} {st st' : List Column × List KeyColumn},
      runRows (fkStep tname) st rows = .ok st' →
      ∀ e ∈ st'.2, e ∈ st.2 ∨ ∃ c' ∈ st'.1, e ∈ c'.foreign_keys := by
  intro rows
  induction rows with
  | nil =>
    intro st st' h e he
    obtain rfl : st = st' := by simpa [runRows] using h
    exact Or.inl he
  | cons r₀ rs ih =>
    intro st st' h e he
    simp only [runRows] at h
    cases hstep : fkStep tname st r₀ with
    | error e => rw [hstep] at h; cases h
    | ok st₁ =>
      rw [hstep] at h
      simp only [fkStep] at hstep
      cases hat : attachForeign tname r₀.1 r₀.2.1 r₀.2.2.1 r₀.2.2.2 st.1 with
      | none => rw [hat] at hstep; cases hstep
      | some pr =>
        obtain ⟨cols₁, e₁⟩ := pr
        rw [hat] at hstep
        obtain rfl : (cols₁, st.2 ++ [e₁]) = st₁ := by simpa using hstep
        rcases ih h e he with he' | he'
        · rcases List.mem_append.mp he' with he'' | he''
          · exact Or.inl he''
          · rcases List.mem_singleton.mp he'' with rfl
            obtain ⟨_, c₀, _, _, rfl, hmem⟩ := attachForeign_spec hat
            obtain ⟨c', hc', hev⟩ := forall2_mem_left (runFk_evolves h) hmem
            obtain ⟨_, _, _, _, hfwd, _, _, _⟩ := hev
            exact Or.inr ⟨c', hc', hfwd _ (by simp)⟩
        · exact Or.inr he'

/-- Every entry of the table-level ref-key accumulator also lives in some
final column's `ref_keys`. -/
theorem runRef_acc {tname : String} :
    ∀ {rows : List Row4} {st st' : List Column × List KeyColumn},
      runRows (refStep tname) st rows = .ok st' →
      ∀ e ∈ st'.2, e ∈ st.2 ∨ ∃ c' ∈ st'.1, e ∈ c'.ref_keys := by
  intro rows
  induction rows with
  | nil =>
    intro st st' h e he
    obtain rfl : st = st' := by simpa [runRows] using h
    exact Or.inl he
  | cons r₀ rs ih =>
    intro st st' h e he
    simp only [runRows] at h
    cases hstep : refStep tname st r₀ with
    | error e => rw [hstep] at h; cases h
    | ok st₁ =>
      rw [hstep] at h
      simp only [refStep] at hstep
      cases hat : attachRef tname r₀.1 r₀.2.1 r₀.2.2.1 r₀.2.2.2 st.1 with
      | none => rw [hat] at hstep; cases hstep
      | some pr =>
        obtain ⟨cols₁, e₁⟩ := pr
        rw [hat] at hstep
        obtain rfl : (cols₁, st.2 ++ [e₁]) = st₁ := by simpa using hstep
        rcases ih h e he with he' | he'
        · rcases List.mem_append.mp he' with he'' | he''
          · exact Or.inl he''
          · rcases List.mem_singleton.mp he'' with rfl
            obtain ⟨_, c₀, _, _, rfl, hmem⟩ := attachRef_spec hat
            obtain ⟨c', hc', hev⟩ := forall2_mem_left (runRef_evolves h) hmem
            obtain ⟨_, _, _, _, _, hfwd, _, _⟩ := hev
            exact Or.inr ⟨c', hc', hfwd _ (by simp)⟩
        · exact Or.inr he'

/-- A foreign-key loop can only fail with a dangling reference on this
table. -/
theorem runFk_error {tname : String} :
    ∀ {rows : List Row4} {st : List Column × List KeyColumn} {e : ResolveError},
      runRows (fkStep tname) st rows = .error e →
      ∃ cn, e = .danglingKeyReference tname cn := by
  intro rows
  induction rows with
  | nil => intro st e h; simp [runRows] at h
  | cons r rs ih =>
    intro st e h
    simp only [runRows] at h
    cases hstep : fkStep tname st r with
    | error e' =>
      rw [hstep] at h
      obtain rfl : e' = e := by simpa using h
      simp only [fkStep] at hstep
      cases hat : attachForeign tname r.1 r.2.1 r.2.2.1 r.2.2.2 st.1 with
      | none =>
        rw [hat] at hstep
        exact ⟨r.1, by simpa using hstep.symm⟩
      | some pr => rw [hat] at hstep; cases hstep
    | ok st₁ =>
      rw [hstep] at h
      exact ih h

/-- A ref-key loop can only fail with a dangling reference on this table. -/
theorem runRef_error {tname : String} :
    ∀ {rows : List Row4} {st : List Column × List KeyColumn} {e : ResolveError},
      runRows (refStep tname) st rows = .error e →
      ∃ cn, e = .danglingKeyReference tname cn := by
  intro rows
  induction rows with
  | nil => intro st e h; simp [runRows] at h
  | cons r rs ih =>
    intro st e h
    simp only [runRows] at h
    cases hstep : refStep tname st r with
    | error e' =>
      rw [hstep] at h
      obtain rfl : e' = e := by simpa using h
      simp only [refStep] at hstep
      cases hat : attachRef tname r.1 r.2.1 r.2.2.1 r.2.2.2 st.1 with
      | none =>
        rw [hat] at hstep
        exact ⟨r.1, by simpa using hstep.symm⟩
      | some pr => rw [hat] at hstep; cases hstep
    | ok st₁ =>
      rw [hstep] at h
      exact ih h

/-- A successful `Table.build` fixes schema and name and evolves the columns
over the two row lists. -/
theorem build_evolves {schema tname : String} {cols : List Column}
    {fkRows refRows : List Row4} {T : Table}
    (h : Table.build schema tname cols fkRows refRows = .ok T) :
    T.schema = schema ∧ T.name = tname ∧
      List.Forall₂ (Evolves tname fkRows refRows) cols T.columns := by
  simp only [Table.build] at h
  split at h
  · cases h
  · next cols₁ tfks₁ h1 =>
    split at h
    · cases h
    · next cols₂ trefs₂ h2 =>
      obtain rfl : (⟨schema, tname, cols₂, tfks₁, trefs₂⟩ : Table) = T := by
        simpa using h
      refine ⟨rfl, rfl, ?_⟩
      have hF1 := runFk_evolves h1
      have hF2 := runRef_evolves h2
      exact forall2_trans (S := Evolves tname [] refRows)
        (T := Evolves tname fkRows refRows)
        (fun a b c hab hbc => evolves_comp hab hbc) hF1 hF2

/-- A successful `Table.build` attached every foreign-key row to a final
column bound under the row's accessor name. -/
theorem build_complete_fk {schema tname : String} {cols : List Column}
    {fkRows refRows : List Row4} {T : Table}
    (h : Table.build schema tname cols fkRows refRows = .ok T) :
    ∀ r ∈ fkRows, ∃ c' ∈ T.columns, attrName tname c'.name = r.1 ∧
      (⟨r.2.1, r.2.2.1, r.2.2.2, c'.type⟩ : KeyColumn) ∈ c'.foreign_keys := by
  simp only [Table.build] at h
  split at h
  · cases h
  · next cols₁ tfks₁ h1 =>
    split at h
    · cases h
    · next cols₂ trefs₂ h2 =>
      obtain rfl : (⟨schema, tname, cols₂, tfks₁, trefs₂⟩ : Table) = T := by
        simpa using h
      intro r hr
      obtain ⟨c₁, hc₁, hattr, hmem⟩ := runFk_complete h1 r hr
      obtain ⟨c', hc', hev⟩ := forall2_mem_left (runRef_evolves h2) hc₁
      obtain ⟨_, _, hn, ht, hfwd, _, _, _⟩ := hev
      refine ⟨c', hc', by simpa [hn] using hattr, ?_⟩
      have := hfwd _ hmem
      rwa [ht]

/-- A successful `Table.build` attached every ref-key row to a final column
bound under the row's accessor name. -/
theorem build_complete_ref {schema tname : String} {cols : List Column}
    {fkRows refRows : List Row4} {T : Table}
    (h : Table.build schema tname cols fkRows refRows = .ok T) :
    ∀ r ∈ refRows, ∃ c' ∈ T.columns, attrName tname c'.name = r.1 ∧
      (⟨r.2.1, r.2.2.1, r.2.2.2, c'.type⟩ : KeyColumn) ∈ c'.ref_keys := by
  simp only [Table.build] at h
  split at h
  · cases h
  · next cols₁ tfks₁ h1 =>
    split at h
    · cases h
    · next cols₂ trefs₂ h2 =>
      obtain rfl : (⟨schema, tname, cols₂, tfks₁, trefs₂⟩ : Table) = T := by
        simpa using h
      exact runRef_complete h2

/-- Every table-level foreign-key entry of a built table lives in some of
its columns' `foreign_keys`. -/
theorem build_tfks {schema tname : String} {cols : List Column}
    {fkRows refRows : List Row4} {T : Table}
    (h : Table.build schema tname cols fkRows refRows = .ok T) :
    ∀ e ∈ T.foreign_keys, ∃ c ∈ T.columns, e ∈ c.foreign_keys := by
  simp only [Table.build] at h
  split at h
  · cases h
  · next cols₁ tfks₁ h1 =>
    split at h
    · cases h
    · next cols₂ trefs₂ h2 =>
      obtain rfl : (⟨schema, tname, cols₂, tfks₁, trefs₂⟩ : Table) = T := by
        simpa using h
      intro e he
      rcases runFk_acc h1 e he with he' | ⟨c₁, hc₁, he₁⟩
      · cases he'
      · obtain ⟨c', hc', hev⟩ := forall2_mem_left (runRef_evolves h2) hc₁
        obtain ⟨_, _, _, _, hfwd, _, _, _⟩ := hev
        exact ⟨c', hc', hfwd _ he₁⟩

/-- Every table-level ref-key entry of a built table lives in some of its
columns' `ref_keys`. -/
theorem build_trefs {schema tname : String} {cols : List Column}
    {fkRows refRows : List Row4} {T : Table}
    (h : Table.build schema tname cols fkRows refRows = .ok T) :
    ∀ e ∈ T.ref_keys, ∃ c ∈ T.columns, e ∈ c.ref_keys := by
  simp only [Table.build] at h
  split at h
  · cases h
  · next cols₁ tfks₁ h1 =>
    split at h
    · cases h
    · next cols₂ trefs₂ h2 =>
      obtain rfl : (⟨schema, tname, cols₂, tfks₁, trefs₂⟩ : Table) = T := by
        simpa using h
      intro e he
      rcases runRef_acc h2 e he with he' | he'
      · cases he'
      · exact he'

/-- A failing `Table.build` always reports a dangling key reference on this
table. -/
theorem build_error {schema tname : String} {cols : List Column}
    {fkRows refRows : List Row4} {e : ResolveError}
    (h : Table.build schema tname cols fkRows refRows = .error e) :
    ∃ cn, e = .danglingKeyReference tname cn := by
  simp only [Table.build] at h
  split at h
  · next e' h1 =>
    obtain rfl : e' = e := by simpa using h
    exact runFk_error h1
  · next cols₁ tfks₁ h1 =>
    split at h
    · next e' h2 =>
      obtain rfl : e' = e := by simpa using h
      exact runRef_error h2
    · next cols₂ trefs₂ h2 => cases h

/-- Every table of a resolved snapshot was built from its schema entry
against the shared store. -/
theorem resolveTables_mem {store : List FkRecord} :
    ∀ {tablesIn : List (String × List ColSpec)} {snap : List Table},
      resolveTables store tablesIn = .ok snap →
      ∀ T ∈ snap, ∃ p ∈ tablesIn,
        Table.build "public" p.1 (freshColumns "public" p.1 p.2)
          (foreignKeysForTable store p.1) (refKeysForTable store p.1) = .ok T := by
  intro tablesIn
  induction tablesIn with
  | nil =>
    intro snap h T hT
    obtain rfl : ([] : List Table) = snap := by simpa [resolveTables] using h
    cases hT
  | cons p rest ih =>
    intro snap h T hT
    obtain ⟨t, specs⟩ := p
    simp only [resolveTables] at h
    cases h1 : Table.build "public" t (freshColumns "public" t specs)
        (foreignKeysForTable store t) (refKeysForTable store t) with
    | error e => rw [h1] at h; cases h
    | ok T₀ =>
      rw [h1] at h
      cases h2 : resolveTables store rest with
      | error e => rw [h2] at h; cases h
      | ok Ts =>
        rw [h2] at h
        obtain rfl : T₀ :: Ts = snap := by simpa using h
        rcases List.mem_cons.mp hT with rfl | hT
        · exact ⟨(t, specs), List.mem_cons_self _ _, h1⟩
        · obtain ⟨p, hp, hb⟩ := ih h2 T hT
          exact ⟨p, List.mem_cons_of_mem _ hp, hb⟩

/-- Every schema entry of a successfully resolved schema produced a table in
the snapshot. -/
theorem resolveTables_forall {store : List FkRecord} :
    ∀ {tablesIn : List (String × List ColSpec)} {snap : List Table},
      resolveTables store tablesIn = .ok snap →
      ∀ p ∈ tablesIn, ∃ T ∈ snap,
        Table.build "public" p.1 (freshColumns "public" p.1 p.2)
          (foreignKeysForTable store p.1) (refKeysForTable store p.1) = .ok T := by
  intro tablesIn
  induction tablesIn with
  | nil => intro snap _ p hp; cases hp
  | cons q rest ih =>
    intro snap h p hp
    obtain ⟨t, specs⟩ := q
    simp only [resolveTables] at h
    cases h1 : Table.build "public" t (freshColumns "public" t specs)
        (foreignKeysForTable store t) (refKeysForTable store t) with
    | error e => rw [h1] at h; cases h
    | ok T₀ =>
      rw [h1] at h
      cases h2 : resolveTables store rest with
      | error e => rw [h2] at h; cases h
      | ok Ts =>
        rw [h2] at h
        obtain rfl : T₀ :: Ts = snap := by simpa using h
        rcases List.mem_cons.mp hp with rfl | hp
        · exact ⟨T₀, List.mem_cons_self _ _, h1⟩
        · obtain ⟨T, hT, hb⟩ := ih h2 p hp
          exact ⟨T, List.mem_cons_of_mem _ hT, hb⟩

/-- A failing resolution always reports a dangling key reference. -/
theorem resolveTables_error {store : List FkRecord} :
    ∀ {tablesIn : List (String × List ColSpec)} {e : ResolveError},
      resolveTables store tablesIn = .error e →
      ∃ tn cn, e = .danglingKeyReference tn cn := by
  intro tablesIn
  induction tablesIn with
  | nil => intro e h; simp [resolveTables] at h
  | cons q rest ih =>
    intro e h
    obtain ⟨t, specs⟩ := q
    simp only [resolveTables] at h
    cases h1 : Table.build "public" t (freshColumns "public" t specs)
        (foreignKeysForTable store t) (refKeysForTable store t) with
    | error e' =>
      rw [h1] at h
      obtain rfl : e' = e := by simpa using h
      obtain ⟨cn, rfl⟩ := build_error h1
      exact ⟨t, cn, rfl⟩
    | ok T₀ =>
      rw [h1] at h
      cases h2 : resolveTables store rest with
      | error e' =>
        rw [h2] at h
        obtain rfl : e' = e := by simpa using h
        exact ih h2
      | ok Ts => rw [h2] at h; cases h

/-- Membership in the sqlite foreign-key query result. -/
theorem mem_foreignKeysForTable {store : List FkRecord} {t : String} {row : Row4} :
    row ∈ foreignKeysForTable store t ↔
      ∃ rec ∈ store, rec.table = t ∧
        row = (rec.column, "public", rec.foreign_table, rec.foreign_column) := by
  simp only [foreignKeysForTable, List.mem_map, List.mem_filter, beq_iff_eq]
  constructor
  · rintro ⟨rec, ⟨hmem, ht⟩, rfl⟩
    exact ⟨rec, hmem, ht, rfl⟩
  · rintro ⟨rec, hmem, ht, rfl⟩
    exact ⟨rec, ⟨hmem, ht⟩, rfl⟩

/-- Membership in the sqlite ref-key query result. -/
theorem mem_refKeysForTable {store : List FkRecord} {t : String} {row : Row4} :
    row ∈ refKeysForTable store t ↔
      ∃ rec ∈ store, rec.foreign_table = t ∧
        row = (rec.foreign_column, "schema", rec.table, rec.column) := by
  simp only [refKeysForTable, List.mem_map, List.mem_filter, beq_iff_eq]
  constructor
  · rintro ⟨rec, ⟨hmem, ht⟩, rfl⟩
    exact ⟨rec, hmem, ht, rfl⟩
  · rintro ⟨rec, hmem, ht, rfl⟩
    exact ⟨rec, ⟨hmem, ht⟩, rfl⟩

/-- Freshly grouped columns have empty key lists and name/type taken from
their catalog row. -/
theorem mem_freshColumns {schema t : String} {specs : List ColSpec} {c : Column}
    (h : c ∈ freshColumns schema t specs) :
    ∃ s ∈ specs, c = ⟨schema, t, s.1, s.2, [], []⟩ := by
  simpa [freshColumns, List.mem_map, eq_comm] using h

/-- A double map whose composite is pointwise the identity is the
identity. -/
theorem map_map_id {α β : Type} (f : α → β) (g : β → α) (h : ∀ a, g (f a) = a) :
    ∀ l : List α, (l.map f).map g = l := by
  intro l
  induction l with
  | nil => rfl
  | cons x xs ih => simp only [List.map_cons, h x, ih]

/-- Serializing after loading from a cached serialization is the identity on
the serialized form. -/
theorem to_dict_tableFromCache (d : TableDict) :
    (tableFromCache d).to_dict = d := by
  obtain ⟨s, n, cs, fks, rks⟩ := d
  simp only [tableFromCache, Table.to_dict]
  rw [map_map_id _ _ (fun cd => rfl) cs, map_map_id _ _ (fun cd => rfl) fks,
    map_map_id _ _ (fun cd => rfl) rks]

/-- Loading a table's serialization keeps its table-level key entry lists
verbatim. -/
theorem tableFromCache_keys (T : Table) :
    (tableFromCache T.to_dict).foreign_keys = T.foreign_keys ∧
    (tableFromCache T.to_dict).ref_keys = T.ref_keys := by
  simp only [tableFromCache, Table.to_dict]
  exact ⟨map_map_id _ _ (fun k => rfl) _, map_map_id _ _ (fun k => rfl) _⟩

/-- Loading a table's serialization preserves the columns' names and
types. -/
theorem tableFromCache_cols (T : Table) :
    (tableFromCache T.to_dict).columns.map (fun c => (c.name, c.type)) =
      T.columns.map (fun c => (c.name, c.type)) := by
  simp only [tableFromCache, Table.to_dict, List.map_map]
  rfl

end TableMod

/-! ### `db.py` refresh lemmas -/

namespace DbMod

/-- `sameShape` is reflexive. -/
theorem sameShape_refl (c : Column) : sameShape c c := ⟨rfl, rfl, rfl⟩

/-- `sameShape` is transitive. -/
theorem sameShape_trans {a b c : Column} (h1 : sameShape a b)
    (h2 : sameShape b c) : sameShape a c :=
  ⟨h2.1.trans h1.1, h2.2.1.trans h1.2.1, h2.2.2.trans h1.2.2⟩

/-- `attachForeign` keeps every column's identity fields. -/
theorem attachForeign_sameShape {cname ft fc : String} :
    ∀ {cols cols' : List Column} {e : KeyColumn},
      attachForeign cname ft fc cols = some (cols', e) →
      List.Forall₂ sameShape cols cols' := by
  intro cols
  induction cols with
  | nil => intro cols' e h; simp [attachForeign] at h
  | cons c rest ih =>
    intro cols' e h
    cases hrec : attachForeign cname ft fc rest with
    | some pr =>
      obtain ⟨rest', e'⟩ := pr
      simp only [attachForeign, hrec] at h
      obtain ⟨rfl, rfl⟩ : c :: rest' = cols' ∧ e' = e := by simpa using h
      exact .cons (sameShape_refl c) (ih hrec)
    | none =>
      simp only [attachForeign, hrec] at h
      split at h
      · obtain ⟨rfl, rfl⟩ :
            ({ c with foreign_keys := c.foreign_keys ++ [⟨ft, fc, c.type⟩] } :: rest
              = cols') ∧ (⟨ft, fc, c.type⟩ : KeyColumn) = e := by
          simpa using h
        exact .cons ⟨rfl, rfl, rfl⟩
          (List.forall₂_same.mpr (fun x _ => sameShape_refl x))
      · cases h

/-- `attachRef` keeps every column's identity fields. -/
theorem attachRef_sameShape {cname rt rc : String} :
    ∀ {cols cols' : List Column} {e : KeyColumn},
      attachRef cname rt rc cols = some (cols', e) →
      List.Forall₂ sameShape cols cols' := by
  intro cols
  induction cols with
  | nil => intro cols' e h; simp [attachRef] at h
  | cons c rest ih =>
    intro cols' e h
    cases hrec : attachRef cname rt rc rest with
    | some pr =>
      obtain ⟨rest', e'⟩ := pr
      simp only [attachRef, hrec] at h
      obtain ⟨rfl, rfl⟩ : c :: rest' = cols' ∧ e' = e := by simpa using h
      exact .cons (sameShape_refl c) (ih hrec)
    | none =>
      simp only [attachRef, hrec] at h
      split at h
      · obtain ⟨rfl, rfl⟩ :
            ({ c with ref_keys := c.ref_keys ++ [⟨rt, rc, c.type⟩] } :: rest
              = cols') ∧ (⟨rt, rc, c.type⟩ : KeyColumn) = e := by
          simpa using h
        exact .cons ⟨rfl, rfl, rfl⟩
          (List.forall₂_same.mpr (fun x _ => sameShape_refl x))
      · cases h

/-- The foreign-key loop keeps every column's identity fields. -/
theorem runFk_sameShape :
    ∀ {rows : List Row3} {st st' : List Column × List KeyColumn},
      runRows fkStep st rows = .ok st' →
      List.Forall₂ sameShape st.1 st'.1 := by
  intro rows
  induction rows with
  | nil =>
    intro st st' h
    obtain rfl : st = st' := by simpa [runRows] using h
    exact List.forall₂_same.mpr (fun c _ => sameShape_refl c)
  | cons r rs ih =>
    intro st st' h
    simp only [runRows] at h
    cases hstep : fkStep st r with
    | error e => rw [hstep] at h; cases h
    | ok st₁ =>
      rw [hstep] at h
      simp only [fkStep] at hstep
      cases hat : attachForeign r.1 r.2.1 r.2.2 st.1 with
      | none => rw [hat] at hstep; cases hstep
      | some pr =>
        obtain ⟨cols₁, e₁⟩ := pr
        rw [hat] at hstep
        obtain rfl : (cols₁, st.2 ++ [e₁]) = st₁ := by simpa using hstep
        exact forall2_trans (S := sameShape) (T := sameShape)
          (fun a b c hab hbc => sameShape_trans hab hbc)
          (attachForeign_sameShape hat) (ih h)

/-- The ref-key loop keeps every column's identity fields. -/
theorem runRef_sameShape :
    ∀ {rows : List Row3} {st st' : List Column × List KeyColumn},
      runRows refStep st rows = .ok st' →
      List.Forall₂ sameShape st.1 st'.1 := by
  intro rows
  induction rows with
  | nil =>
    intro st st' h
    obtain rfl : st = st' := by simpa [runRows] using h
    exact List.forall₂_same.mpr (fun c _ => sameShape_refl c)
  | cons r rs ih =>
    intro st st' h
    simp only [runRows] at h
    cases hstep : refStep st r with
    | error e => rw [hstep] at h; cases h
    | ok st₁ =>
      rw [hstep] at h
      simp only [refStep] at hstep
      cases hat : attachRef r.1 r.2.1 r.2.2 st.1 with
      | none => rw [hat] at hstep; cases hstep
      | some pr =>
        obtain ⟨cols₁, e₁⟩ := pr
        rw [hat] at hstep
        obtain rfl : (cols₁, st.2 ++ [e₁]) = st₁ := by simpa using hstep
        exact forall2_trans (S := sameShape) (T := sameShape)
          (fun a b c hab hbc => sameShape_trans hab hbc)
          (attachRef_sameShape hat) (ih h)

/-- A successfully built table keeps its name, keeps the identity fields of
its grouped columns, and both of its catalog key queries succeeded. -/
theorem buildFromCatalog_ok {cat : Catalog} {t : String} {cols : List Column}
    {T : Table} (h : buildFromCatalog cat t cols = .ok T) :
    T.name = t ∧ List.Forall₂ sameShape cols T.columns ∧
      (∃ r, cat.foreignKeysQuery t = .ok r) ∧
      (∃ r, cat.refKeysQuery t = .ok r) := by
  simp only [buildFromCatalog] at h
  split at h
  · cases h
  · next fkRows h1 =>
    split at h
    · cases h
    · next cols₁ tfks₁ h2 =>
      split at h
      · cases h
      · next refRows h3 =>
        split at h
        · cases h
        · next cols₂ trefs₂ h4 =>
          obtain rfl : (⟨t, cols₂, attrsOf cols₂, tfks₁, trefs₂⟩ : Table) = T := by
            simpa using h
          refine ⟨rfl, ?_, ⟨fkRows, h1⟩, ⟨refRows, h3⟩⟩
          exact forall2_trans (S := sameShape) (T := sameShape)
            (fun a b c hab hbc => sameShape_trans hab hbc)
            (runFk_sameShape h2) (runRef_sameShape h4)

/-- A successful `buildAll` builds exactly one table per name, in order. -/
theorem buildAll_forall2 {cat : Catalog} {rows : List Row3} :
    ∀ {ts : List String} {snap : List Table},
      buildAll cat rows ts = .ok snap →
      List.Forall₂ (fun t T => buildFromCatalog cat t (columnsFor t rows) = .ok T)
        ts snap := by
  intro ts
  induction ts with
  | nil =>
    intro snap h
    obtain rfl : ([] : List Table) = snap := by simpa [buildAll] using h
    exact .nil
  | cons t ts ih =>
    intro snap h
    simp only [buildAll] at h
    cases h1 : buildFromCatalog cat t (columnsFor t rows) with
    | error e => rw [h1] at h; cases h
    | ok T₀ =>
      rw [h1] at h
      cases h2 : buildAll cat rows ts with
      | error e => rw [h2] at h; cases h
      | ok Ts =>
        rw [h2] at h
        obtain rfl : T₀ :: Ts = snap := by simpa using h
        exact .cons h1 (ih h2)

/-- The names of a successfully refreshed snapshot are exactly the sorted
table names. -/
theorem buildAll_names {cat : Catalog} {rows : List Row3} {ts : List String}
    {snap : List Table} (h : buildAll cat rows ts = .ok snap) :
    snap.map (fun T => T.name) = ts := by
  have hF := buildAll_forall2 h
  clear h
  induction hF with
  | nil => rfl
  | cons hb hF ih =>
    simp only [List.map_cons, List.cons.injEq]
    exact ⟨(buildFromCatalog_ok hb).1, ih⟩

/-- Membership in a `find_column` result: exactly the `Column`-valued
attributes whose attribute name matches the glob, subject to the (truthy)
type filter. -/
theorem findColumn_mem {tables : List Table} {search : String}
    {arg : DataTypeArg} {c : Column} :
    c ∈ findColumn tables search arg ↔
      ∃ T ∈ tables, ∃ k, (k, Attr.column c) ∈ T.attrs ∧ fnmatch k search = true ∧
        (normalizeDataType arg ≠ [] → c.type ∈ normalizeDataType arg) := by
  simp only [findColumn, List.mem_flatMap, List.mem_filterMap]
  constructor
  · rintro ⟨T, hT, p, hp, hf⟩
    obtain ⟨k, a⟩ := p
    by_cases hm : fnmatch k search
    · cases a with
      | nonColumn => simp [hm] at hf
      | column c' =>
        simp only [hm, if_true] at hf
        split at hf
        · cases hf
        · next hcond =>
          have hcc : c' = c := by simpa using hf
          subst hcc
          refine ⟨T, hT, k, hp, hm, fun hne => ?_⟩
          cases hC : (normalizeDataType arg).contains c'.type with
          | true => simpa using hC
          | false =>
            exfalso
            apply hcond
            have hE : (normalizeDataType arg).isEmpty = false := by
              cases hq : (normalizeDataType arg).isEmpty
              · rfl
              · exact absurd (by simpa [List.isEmpty_iff] using hq) hne
            simp [hE]
            simpa using hC
    · simp [hm] at hf
  · rintro ⟨T, hT, k, hk, hm, hdt⟩
    refine ⟨T, hT, (k, .column c), hk, ?_⟩
    simp only [hm, if_true]
    have hcond : ¬((!(normalizeDataType arg).isEmpty &&
        !((normalizeDataType arg).contains c.type)) = true) := by
      by_cases hne : normalizeDataType arg = []
      · simp [hne]
      · simp [hdt hne]
    rw [if_neg hcond]

/-- The sorted table-name list has no duplicates. -/
theorem tableNames_nodup (rows : List Row3) : (tableNames rows).Nodup :=
  (sortStrings_perm _).symm.nodup (List.nodup_dedup _)

/-- Membership in the sorted table-name list. -/
theorem tableNames_mem {t : String} {rows : List Row3} :
    t ∈ tableNames rows ↔ t ∈ rows.map (fun r => r.1) :=
  sortStrings_mem.trans List.mem_dedup

/-- The sorted table-name list is strictly lexicographically increasing. -/
theorem tableNames_pairwise (rows : List Row3) :
    (tableNames rows).Pairwise (fun a b => strLe a b = true ∧ a ≠ b) :=
  (sortStrings_sorted _).and (tableNames_nodup rows)

end DbMod

end DbPy

namespace DbPy.TableMod

/-- Serialize-load-serialize is the identity on serialized snapshots. -/
theorem serialize_load_serialize (snap : List Table) :
    serializeSnapshot (snapshotFromCache (serializeSnapshot snap)) =
      serializeSnapshot snap := by
  simp only [serializeSnapshot, snapshotFromCache]
  exact map_map_id _ _ to_dict_tableFromCache _

/-- Loading a cached serialization preserves the snapshot's
`(table, column, type)` triples. -/
theorem triples_load (snap : List Table) :
    snapshotTriples (snapshotFromCache (serializeSnapshot snap)) =
      snapshotTriples snap := by
  induction snap with
  | nil => rfl
  | cons T Ts ih =>
    simp only [serializeSnapshot, snapshotFromCache, snapshotTriples,
      List.map_cons, List.flatMap_cons] at ih ⊢
    rw [ih]
    congr 1
    simp only [tableFromCache, Table.to_dict, List.map_map]
    rfl

/-- Loading a cached serialization preserves the table-level foreign-key
edge set. -/
theorem fkEdges_load (snap : List Table) :
    snapshotFkEdges (snapshotFromCache (serializeSnapshot snap)) =
      snapshotFkEdges snap := by
  induction snap with
  | nil => rfl
  | cons T Ts ih =>
    simp only [serializeSnapshot, snapshotFromCache, snapshotFkEdges,
      List.map_cons, List.flatMap_cons] at ih ⊢
    rw [ih, (tableFromCache_keys T).1]
    rfl

/-- Loading a cached serialization preserves the table-level ref-key edge
set. -/
theorem refEdges_load (snap : List Table) :
    snapshotRefEdges (snapshotFromCache (serializeSnapshot snap)) =
      snapshotRefEdges snap := by
  induction snap with
  | nil => rfl
  | cons T Ts ih =>
    simp only [serializeSnapshot, snapshotFromCache, snapshotRefEdges,
      List.map_cons, List.flatMap_cons] at ih ⊢
    rw [ih, (tableFromCache_keys T).2]
    rfl

end DbPy.TableMod

/-! ### Claim theorems -/

open DbPy

/-- C4: `find_table(pattern)` returns exactly the snapshot tables whose name
matches the pattern under shell-glob semantics, case-sensitively; no match
yields an empty collection rather than an error (the model is a total
function, the filter is simply empty); `find_table("A*")` against
`{Album, Artist, Track}` returns exactly `{Album, Artist}` (and `"a*"`
returns nothing, showing case-sensitivity), and `find_table("*")` returns
all tables. -/
theorem c4_find_table_glob :
    (∀ (tables : List DbMod.Table) (pat : String),
      DbMod.findTable tables pat = tables.filter (fun T => fnmatch T.name pat)) ∧
    (∀ tables : List DbMod.Table, DbMod.findTable tables "*" = tables) ∧
    (∀ (tables : List DbMod.Table) (pat : String),
      (∀ T ∈ tables, fnmatch T.name pat = false) →
        DbMod.findTable tables pat = []) ∧
    ((DbMod.findTable demoTables "A*").map (fun T => T.name) =
      ["Album", "Artist"]) ∧
    (DbMod.findTable demoTables "a*" = []) ∧
    ((DbMod.findTable demoTables "*").map (fun T => T.name) =
      ["Album", "Artist", "Track"]) := by
  refine ⟨fun tables pat => rfl, ?_, ?_, by decide, by decide, by decide⟩
  · intro tables
    exact List.filter_eq_self.mpr (fun T _ => fnmatch_star T.name)
  · intro tables pat h
    rw [DbMod.findTable, List.filter_eq_nil_iff]
    intro T hT
    simp [h T hT]

/-- C4 witness: a pattern matching no table of the demo snapshot yields the
empty collection. -/
theorem c4_find_table_glob_witness : DbMod.findTable demoTables "Xyz*" = [] :=
  c4_find_table_glob.2.2.1 demoTables "Xyz*" (by decide)

/-- C5 counterexample: with an explicitly given *empty list* type filter,
`find_column` applies no type restriction at all (Python's `if data_type`
is falsy for `[]`), so matching columns are returned even though their
backend-reported type equals none of the filter strings — contradicting
"included iff its type string equals one of the filter strings". -/
theorem c5_find_column_counterexample :
    (DbMod.findColumn demoTables "*Id" (.list [])).map
        (fun c => (c.table, c.name, c.type)) =
      [("Album", "AlbumId", "INTEGER"), ("Album", "ArtistId", "INTEGER"),
       ("Artist", "ArtistId", "INTEGER"), ("Track", "TrackId", "INTEGER"),
       ("Track", "AlbumId", "INTEGER")] ∧
    ∀ c ∈ DbMod.findColumn demoTables "*Id" (.list []),
      c.type ∉ ([] : List String) := by
  exact ⟨by decide, by decide⟩

/-- C5 (amended): `find_column` returns exactly the `Column`-valued
attributes (across all tables of the snapshot) whose attribute name matches
the glob; when a *non-empty* type filter is given — one string or a
non-empty list — a matching column is included iff its backend-reported
type string is exactly equal to one of the filter strings (no
normalization); an empty-list filter, like an absent one, disables type
filtering entirely; with no matches the result is the empty collection,
never an error. -/
theorem c5_find_column_amended :
    ∀ (tables : List DbMod.Table) (pat : String) (arg : DbMod.DataTypeArg)
      (c : DbMod.Column),
      c ∈ DbMod.findColumn tables pat arg ↔
        ∃ T ∈ tables, ∃ k, (k, DbMod.Attr.column c) ∈ T.attrs ∧
          fnmatch k pat = true ∧
          (DbMod.normalizeDataType arg ≠ [] →
            c.type ∈ DbMod.normalizeDataType arg) :=
  fun _ _ _ _ => DbMod.findColumn_mem

/-- C5 witness: the demo snapshot's `Artist.Name` column is found under a
one-string type filter, and the characterization instantiates to it. -/
theorem c5_find_column_amended_witness :
    ∃ T ∈ demoTables, ∃ k,
      (k, DbMod.Attr.column ⟨"Artist", "Name", "NVARCHAR(120)", [], []⟩) ∈ T.attrs ∧
      fnmatch k "Name" = true ∧
      (DbMod.normalizeDataType (.str "NVARCHAR(120)") ≠ [] →
        (⟨"Artist", "Name", "NVARCHAR(120)", [], []⟩ : DbMod.Column).type ∈
          DbMod.normalizeDataType (.str "NVARCHAR(120)")) :=
  (c5_find_column_amended demoTables "Name" (.str "NVARCHAR(120)")
    ⟨"Artist", "Name", "NVARCHAR(120)", [], []⟩).mp (by decide)

/-- C6 counterexample: in the `Table` embedded in `db/db.py` (lines
270-274), a column named `name` on table `Album` is bound under the
accessor `_name` — a bare underscore prefix — not under `Album_name`; the
claim's table-name-prefix rule does not hold for this implementation. -/
theorem c6_rename_rule_counterexample :
    DbMod.attrName "name" = "_name" ∧
    "_name" ≠ "Album" ++ "_" ++ "name" ∧
    ((DbMod.attrsOf [⟨"Album", "name", "TEXT", [], []⟩]).map (fun p => p.1) =
      ["name", "_con", "_cur", "_query_templates", "foreign_keys", "ref_keys",
       "keys_per_column", "_columns", "_name"]) ∧
    (∀ p ∈ DbMod.attrsOf [⟨"Album", "name", "TEXT", [], []⟩],
      p.1 ≠ "Album_name") := by
  exact ⟨rfl, by decide, by decide, by decide⟩

/-- C6 (amended): a collision with a reserved accessor name is resolved by
a deterministic renaming, never an error, but the rule differs between the
two `Table` implementations: `db/table.py` (reserved `name`, `con`,
`count`) prefixes the table name plus an underscore, while the `Table`
embedded in `db/db.py` (reserved `name`, `con`) prefixes a single
underscore, not the table name.  Non-reserved names are used verbatim in
both. -/
theorem c6_rename_rule_amended :
    (∀ t c, (c = "name" ∨ c = "con" ∨ c = "count") →
      TableMod.attrName t c = t ++ "_" ++ c) ∧
    (∀ t c, ¬(c = "name" ∨ c = "con" ∨ c = "count") →
      TableMod.attrName t c = c) ∧
    (∀ c, (c = "name" ∨ c = "con") → DbMod.attrName c = "_" ++ c) ∧
    (∀ c, ¬(c = "name" ∨ c = "con") → DbMod.attrName c = c) := by
  refine ⟨fun t c h => ?_, fun t c h => ?_, fun c h => ?_, fun c h => ?_⟩
  · rw [TableMod.attrName, if_pos h]
  · rw [TableMod.attrName, if_neg h]
  · rw [DbMod.attrName, if_pos h]
  · rw [DbMod.attrName, if_neg h]

/-- C6 witness: the four clauses at concrete inputs. -/
theorem c6_rename_rule_amended_witness :
    TableMod.attrName "Album" "name" = "Album" ++ "_" ++ "name" ∧
    TableMod.attrName "Album" "Title" = "Title" ∧
    DbMod.attrName "name" = "_" ++ "name" ∧
    DbMod.attrName "Title" = "Title" :=
  ⟨c6_rename_rule_amended.1 "Album" "name" (Or.inl rfl),
   c6_rename_rule_amended.2.1 "Album" "Title" (by decide),
   c6_rename_rule_amended.2.2.1 "name" (Or.inl rfl),
   c6_rename_rule_amended.2.2.2 "Title" (by decide)⟩

/-- C10: `find_column` matches the glob against attribute (accessor) names
and only ever returns `Column`-valued attributes; concretely, a column
literally named `name` (renamed to `_name` by the collision rule of
`db/db.py`) is not found under its original name — the attribute `name`
holds the table-name string, which the `isinstance` test rejects — but is
found under its renamed accessor `_name`. -/
theorem c10_find_column_accessor_names :
    (∀ (tables : List DbMod.Table) (pat : String) (arg : DbMod.DataTypeArg)
      (c : DbMod.Column),
      c ∈ DbMod.findColumn tables pat arg →
      ∃ T ∈ tables, ∃ k, (k, DbMod.Attr.column c) ∈ T.attrs ∧
        fnmatch k pat = true) ∧
    (DbMod.findColumn renamedTables "name" .none = []) ∧
    ((DbMod.findColumn renamedTables "_name" .none).map
        (fun c => (c.table, c.name, c.type)) = [("Widget", "name", "TEXT")]) := by
  refine ⟨?_, by decide, by decide⟩
  intro tables pat arg c hc
  obtain ⟨T, hT, k, hk, hm, _⟩ := DbMod.findColumn_mem.mp hc
  exact ⟨T, hT, k, hk, hm⟩

/-- C10 witness: the renamed column is reachable under `_name`. -/
theorem c10_find_column_accessor_names_witness :
    ∃ T ∈ renamedTables, ∃ k,
      (k, DbMod.Attr.column ⟨"Widget", "name", "TEXT", [], []⟩) ∈ T.attrs ∧
      fnmatch k "_name" = true :=
  c10_find_column_accessor_names.1 renamedTables "_name" .none
    ⟨"Widget", "name", "TEXT", [], []⟩ (by decide)

/-- C2: a refresh publishes (`self.tables` is assigned) only after every
table has been fully built, so any catalog-query failure — including a
per-table ref-key query failing after the column listing and the
foreign-key queries already succeeded — leaves the previously published
snapshot as the visible state; the embedding is pure, so the old
`Table`/`Column` values are untouched by construction. -/
theorem c2_refresh_atomic :
    (∀ (old : List DbMod.Table) (cat : DbMod.Catalog) (e : DbPy.ResolveError),
      DbMod.refreshSchema cat = .error e → DbMod.publish old cat = old) ∧
    (∀ (old : List DbMod.Table) (cat : DbMod.Catalog) (rows : List DbMod.Row3)
      (t m : String),
      cat.schemaQuery = .ok rows → t ∈ rows.map (fun r => r.1) →
      cat.refKeysQuery t = .error m →
      (∃ e, DbMod.refreshSchema cat = .error e) ∧
        DbMod.publish old cat = old) := by
  have part1 : ∀ (old : List DbMod.Table) (cat : DbMod.Catalog)
      (e : DbPy.ResolveError),
      DbMod.refreshSchema cat = .error e → DbMod.publish old cat = old := by
    intro old cat e h
    rw [DbMod.publish, h]
  refine ⟨part1, ?_⟩
  intro old cat rows t m hq ht href
  have herr : ∃ e, DbMod.refreshSchema cat = .error e := by
    cases hres : DbMod.refreshSchema cat with
    | error e => exact ⟨e, rfl⟩
    | ok snap =>
      exfalso
      rw [DbMod.refreshSchema, hq] at hres
      have hmem : t ∈ DbMod.tableNames rows := DbMod.tableNames_mem.mpr ht
      obtain ⟨T, _, hbuild⟩ :=
        forall2_mem_left (DbMod.buildAll_forall2 hres) hmem
      obtain ⟨_, _, _, r, hok⟩ := DbMod.buildFromCatalog_ok hbuild
      rw [href] at hok
      cases hok
  obtain ⟨e, he⟩ := herr
  exact ⟨⟨e, he⟩, part1 old cat e he⟩

/-- C2 witness: against the demo catalog whose ref-key query for `Artist`
fails after the column listing and foreign-key queries succeeded, the
previously published demo snapshot stays visible. -/
theorem c2_refresh_atomic_witness :
    (∃ e, DbMod.refreshSchema failingCatalog = .error e) ∧
      DbMod.publish demoTables failingCatalog = demoTables :=
  c2_refresh_atomic.2 demoTables failingCatalog demoRows "Artist"
    "connection reset" rfl (by decide) rfl

/-- C3: a successful refresh publishes the tables in strictly increasing
lexicographic name order (`sorted(tables.keys())`, names unique), with each
table's column order exactly the catalog-reported row order for that table;
resolution is a pure function of the catalog rows, so resolving the same
rows twice yields the identical snapshot. -/
theorem c3_refresh_deterministic_order :
    ∀ (cat : DbMod.Catalog) (rows : List DbMod.Row3) (snap : List DbMod.Table),
      cat.schemaQuery = .ok rows → DbMod.refreshSchema cat = .ok snap →
      snap.map (fun T => T.name) = DbMod.tableNames rows ∧
      snap.Pairwise (fun A B => DbPy.strLe A.name B.name = true ∧
        A.name ≠ B.name) ∧
      ∀ T ∈ snap, T.columns.map (fun c => (c.name, c.type)) =
        (rows.filter (fun r => r.1 == T.name)).map (fun r => (r.2.1, r.2.2)) := by
  intro cat rows snap hq hres
  rw [DbMod.refreshSchema, hq] at hres
  have hnames := DbMod.buildAll_names hres
  refine ⟨hnames, ?_, ?_⟩
  · have := DbMod.tableNames_pairwise rows
    rw [← hnames] at this
    exact (List.pairwise_map.mp this)
  · intro T hT
    obtain ⟨t, _, hbuild⟩ :=
      forall2_mem_right (DbMod.buildAll_forall2 hres) hT
    obtain ⟨hname, hF, _, _⟩ := DbMod.buildFromCatalog_ok hbuild
    have hmap := forall2_map_eq
      (f := fun c : DbMod.Column => (c.name, c.type))
      (fun a b hab => by
        obtain ⟨_, hn, ht⟩ := hab
        simp [hn, ht]) hF
    rw [hmap, ← hname]
    simp [DbMod.columnsFor, List.map_map, Function.comp]

/-- C3 witness: the demo catalog resolves to tables `Album`, `Artist`,
`Track` in sorted order with catalog column order. -/
theorem c3_refresh_deterministic_order_witness :
    demoTables.map (fun T => T.name) = DbMod.tableNames demoRows ∧
    demoTables.Pairwise (fun A B => DbPy.strLe A.name B.name = true ∧
      A.name ≠ B.name) ∧
    ∀ T ∈ demoTables, T.columns.map (fun c => (c.name, c.type)) =
      (demoRows.filter (fun r => r.1 == T.name)).map (fun r => (r.2.1, r.2.2)) :=
  c3_refresh_deterministic_order demoCatalog demoRows demoTables rfl rfl

/-- C1 counterexample: resolution (via the sqlite catalog queries) succeeds
on a foreign-key store whose single edge `A.a → B.b` targets a table `B`
that is not part of the schema; the edge is recorded in `A.a.foreign_keys`,
but no table named `B` — hence no `B.b.ref_keys` entry — exists anywhere in
the snapshot, so the claimed symmetry fails as stated. -/
theorem c1_fk_ref_symmetry_counterexample :
    TableMod.resolveTables TableMod.cxStore TableMod.cxTables =
      .ok TableMod.cxSnap ∧
    (∃ T ∈ TableMod.cxSnap, T.name = "A" ∧ ∃ c ∈ T.columns, c.name = "a" ∧
      ∃ e ∈ c.foreign_keys, e.table = "B" ∧ e.name = "b") ∧
    (∀ T ∈ TableMod.cxSnap, T.name ≠ "B") :=
  ⟨rfl, by decide, by decide⟩

/-- C1 (amended): for every foreign-key edge recorded in
`A.a.foreign_keys` whose target table `B` is itself among the resolved
tables, the snapshot contains the reciprocal entry: some column `b` of `B`
whose accessor name is the edge's target column carries a `ref_keys` entry
naming table `A` and the accessor name of `a`.  (If `B` is absent from the
schema, resolution can still succeed and the edge has no reciprocal entry —
see the counterexample.) -/
theorem c1_fk_ref_symmetry_amended :
    ∀ (store : List TableMod.FkRecord)
      (tablesIn : List (String × List TableMod.ColSpec))
      (snap : List TableMod.Table),
      TableMod.resolveTables store tablesIn = .ok snap →
      ∀ A ∈ snap, ∀ a ∈ A.columns, ∀ e ∈ a.foreign_keys,
      ∀ B ∈ snap, B.name = e.table →
      ∃ b ∈ B.columns, TableMod.attrName B.name b.name = e.name ∧
        ∃ r ∈ b.ref_keys, r.table = A.name ∧
          r.name = TableMod.attrName A.name a.name := by
  intro store tablesIn snap h A hA a ha e he B hB hBe
  obtain ⟨pA, hpA, hbuildA⟩ := TableMod.resolveTables_mem h A hA
  obtain ⟨hAs, hAn, hFA⟩ := TableMod.build_evolves hbuildA
  obtain ⟨a₀, ha₀, hev⟩ := forall2_mem_right hFA ha
  obtain ⟨s, hs, rfl⟩ := TableMod.mem_freshColumns ha₀
  obtain ⟨_, _, hn, ht, _, _, hbk, _⟩ := hev
  rcases hbk e he with he0 | ⟨hrow, hty⟩
  · cases he0
  · rw [TableMod.mem_foreignKeysForTable] at hrow
    obtain ⟨rec, hrec, hrectab, hroweq⟩ := hrow
    simp only [Prod.mk.injEq] at hroweq
    obtain ⟨hcol, hsch, htab, hfcol⟩ := hroweq
    obtain ⟨pB, hpB, hbuildB⟩ := TableMod.resolveTables_mem h B hB
    obtain ⟨_, hBn, _⟩ := TableMod.build_evolves hbuildB
    have hrt : rec.foreign_table = pB.1 := by
      rw [← htab, ← hBe, hBn]
    have hrowB : (rec.foreign_column, "schema", rec.table, rec.column) ∈
        TableMod.refKeysForTable store pB.1 :=
      TableMod.mem_refKeysForTable.mpr ⟨rec, hrec, hrt, rfl⟩
    obtain ⟨b, hb, hattrb, hmemb⟩ := TableMod.build_complete_ref hbuildB _ hrowB
    refine ⟨b, hb, ?_,
      ⟨"schema", rec.table, rec.column, b.type⟩, hmemb, ?_, ?_⟩
    · rw [hBn, hattrb]
      exact hfcol.symm
    · rw [hrectab, hAn]
    · rw [hAn, hn]
      exact hcol.symm

/-- C1 witness: the amended statement at the two-table demo schema
(`Album.ArtistId → Artist.ArtistId`): `Artist.ArtistId.ref_keys` holds the
back-pointer to `(Album, ArtistId)`. -/
theorem c1_fk_ref_symmetry_amended_witness :
    ∃ b ∈ (⟨"public", "Artist",
        [⟨"public", "Artist", "ArtistId", "INTEGER", [],
          [⟨"schema", "Album", "ArtistId", "INTEGER"⟩]⟩,
         ⟨"public", "Artist", "Name", "NVARCHAR(120)", [], []⟩],
        [], [⟨"schema", "Album", "ArtistId", "INTEGER"⟩]⟩ :
          TableMod.Table).columns,
      TableMod.attrName "Artist" b.name = "ArtistId" ∧
      ∃ r ∈ b.ref_keys, r.table = "Album" ∧
        r.name = TableMod.attrName "Album" "ArtistId" :=
  c1_fk_ref_symmetry_amended TableMod.tmStore TableMod.tmTables
    TableMod.tmSnap rfl
    ⟨"public", "Album",
      [⟨"public", "Album", "AlbumId", "INTEGER", [], []⟩,
       ⟨"public", "Album", "ArtistId", "INTEGER",
        [⟨"public", "Artist", "ArtistId", "INTEGER"⟩], []⟩],
      [⟨"public", "Artist", "ArtistId", "INTEGER"⟩], []⟩ (by decide)
    ⟨"public", "Album", "ArtistId", "INTEGER",
      [⟨"public", "Artist", "ArtistId", "INTEGER"⟩], []⟩ (by decide)
    ⟨"public", "Artist", "ArtistId", "INTEGER"⟩ (by decide)
    ⟨"public", "Artist",
      [⟨"public", "Artist", "ArtistId", "INTEGER", [],
        [⟨"schema", "Album", "ArtistId", "INTEGER"⟩]⟩,
       ⟨"public", "Artist", "Name", "NVARCHAR(120)", [], []⟩],
      [], [⟨"schema", "Album", "ArtistId", "INTEGER"⟩]⟩ (by decide) rfl

/-- C7: if a foreign-key or ref-key row of the store names, for a table of
the schema, a column that no accessor of that table's resolved columns
matches, then the whole resolution fails with `DanglingKeyReference` (the
`AttributeError` of `getattr` in `Table.__init__`) — the edge is never
silently dropped, and since the refresh errors, no snapshot is produced,
let alone published. -/
theorem c7_dangling_key_reference :
    ∀ (store : List TableMod.FkRecord)
      (tablesIn : List (String × List TableMod.ColSpec))
      (t : String) (specs : List TableMod.ColSpec),
      (t, specs) ∈ tablesIn →
      (∃ rec ∈ store,
        (rec.table = t ∧
          ∀ s ∈ specs, TableMod.attrName t s.1 ≠ rec.column) ∨
        (rec.foreign_table = t ∧
          ∀ s ∈ specs, TableMod.attrName t s.1 ≠ rec.foreign_column)) →
      ∃ tn cn, TableMod.resolveTables store tablesIn =
        .error (.danglingKeyReference tn cn) := by
  intro store tablesIn t specs hmem hbad
  cases hres : TableMod.resolveTables store tablesIn with
  | error e =>
    obtain ⟨tn, cn, rfl⟩ := TableMod.resolveTables_error hres
    exact ⟨tn, cn, rfl⟩
  | ok snap =>
    exfalso
    obtain ⟨rec, hrec, hcase⟩ := hbad
    obtain ⟨T, _, hbuild⟩ := TableMod.resolveTables_forall hres (t, specs) hmem
    obtain ⟨_, _, hF⟩ := TableMod.build_evolves hbuild
    rcases hcase with ⟨htab, hnone⟩ | ⟨htab, hnone⟩
    · have hrow : (rec.column, "public", rec.foreign_table, rec.foreign_column) ∈
          TableMod.foreignKeysForTable store t :=
        TableMod.mem_foreignKeysForTable.mpr ⟨rec, hrec, htab, rfl⟩
      obtain ⟨c', hc', hattr, _⟩ := TableMod.build_complete_fk hbuild _ hrow
      obtain ⟨c₀, hc₀, hev⟩ := forall2_mem_right hF hc'
      obtain ⟨s, hs, rfl⟩ := TableMod.mem_freshColumns hc₀
      have hn : c'.name = s.1 := hev.2.2.1
      exact hnone s hs (hn ▸ hattr)
    · have hrow : (rec.foreign_column, "schema", rec.table, rec.column) ∈
          TableMod.refKeysForTable store t :=
        TableMod.mem_refKeysForTable.mpr ⟨rec, hrec, htab, rfl⟩
      obtain ⟨c', hc', hattr, _⟩ := TableMod.build_complete_ref hbuild _ hrow
      obtain ⟨c₀, hc₀, hev⟩ := forall2_mem_right hF hc'
      obtain ⟨s, hs, rfl⟩ := TableMod.mem_freshColumns hc₀
      have hn : c'.name = s.1 := hev.2.2.1
      exact hnone s hs (hn ▸ hattr)

/-- C7 witness: a store row `T.y → Z.z` against a table `T` whose only
column is `x` makes the refresh fail with a dangling key reference. -/
theorem c7_dangling_key_reference_witness :
    ∃ tn cn, TableMod.resolveTables TableMod.badStore TableMod.badTables =
      .error (.danglingKeyReference tn cn) :=
  c7_dangling_key_reference TableMod.badStore TableMod.badTables "T"
    [("x", "INTEGER")] (by decide)
    ⟨⟨"T", "y", "Z", "z"⟩, by decide, Or.inl ⟨rfl, by decide⟩⟩

/-- C8: for any schema (with at least one foreign key) resolved from the
catalog, resolving from the cached serialization of the snapshot yields the
same serialized form — the same `(table, column, type)` triples and the same
table-level foreign-key/ref-key edge sets — as the catalog-resolved
snapshot: `serialize(resolve(catalog)) =
serialize(resolve(cache_of_that_serialization))`.  The cache loader is
modelled from the spec (see `tableFromCache`); the serialized form stores
key entries per table, not per owning column, and exactly that topology
round-trips. -/
theorem c8_cache_round_trip :
    ∀ (store : List TableMod.FkRecord)
      (tablesIn : List (String × List TableMod.ColSpec))
      (snap : List TableMod.Table),
      TableMod.resolveTables store tablesIn = .ok snap →
      (∃ T ∈ snap, T.foreign_keys ≠ []) →
      TableMod.serializeSnapshot
          (TableMod.snapshotFromCache (TableMod.serializeSnapshot snap)) =
        TableMod.serializeSnapshot snap ∧
      TableMod.snapshotTriples
          (TableMod.snapshotFromCache (TableMod.serializeSnapshot snap)) =
        TableMod.snapshotTriples snap ∧
      TableMod.snapshotFkEdges
          (TableMod.snapshotFromCache (TableMod.serializeSnapshot snap)) =
        TableMod.snapshotFkEdges snap ∧
      TableMod.snapshotRefEdges
          (TableMod.snapshotFromCache (TableMod.serializeSnapshot snap)) =
        TableMod.snapshotRefEdges snap :=
  fun _ _ snap _ _ =>
    ⟨TableMod.serialize_load_serialize snap, TableMod.triples_load snap,
     TableMod.fkEdges_load snap, TableMod.refEdges_load snap⟩

/-- C8 witness: the round trip at the resolved two-table demo schema, which
has one foreign key. -/
theorem c8_cache_round_trip_witness :
    TableMod.serializeSnapshot
        (TableMod.snapshotFromCache (TableMod.serializeSnapshot
          TableMod.tmSnap)) = TableMod.serializeSnapshot TableMod.tmSnap ∧
    TableMod.snapshotTriples
        (TableMod.snapshotFromCache (TableMod.serializeSnapshot
          TableMod.tmSnap)) = TableMod.snapshotTriples TableMod.tmSnap ∧
    TableMod.snapshotFkEdges
        (TableMod.snapshotFromCache (TableMod.serializeSnapshot
          TableMod.tmSnap)) = TableMod.snapshotFkEdges TableMod.tmSnap ∧
    TableMod.snapshotRefEdges
        (TableMod.snapshotFromCache (TableMod.serializeSnapshot
          TableMod.tmSnap)) = TableMod.snapshotRefEdges TableMod.tmSnap :=
  c8_cache_round_trip TableMod.tmStore TableMod.tmTables TableMod.tmSnap rfl
    (by decide)

/-- C9: every foreign-key/ref-key entry created during table construction —
both on the owning column and in the table-level sets — carries the type of
the local (referencing) column, never the declared type of the target
column: the store rows carry no type information at all (`FkRecord` has
none to consult), and the entry's `type` equals the owning column's. -/
theorem c9_key_entries_carry_local_type :
    ∀ (store : List TableMod.FkRecord)
      (tablesIn : List (String × List TableMod.ColSpec))
      (snap : List TableMod.Table),
      TableMod.resolveTables store tablesIn = .ok snap →
      ∀ T ∈ snap,
        (∀ c ∈ T.columns, (∀ e ∈ c.foreign_keys, e.type = c.type) ∧
          (∀ e ∈ c.ref_keys, e.type = c.type)) ∧
        (∀ e ∈ T.foreign_keys, ∃ c ∈ T.columns,
          e ∈ c.foreign_keys ∧ e.type = c.type) ∧
        (∀ e ∈ T.ref_keys, ∃ c ∈ T.columns,
          e ∈ c.ref_keys ∧ e.type = c.type) := by
  intro store tablesIn snap h T hT
  obtain ⟨p, hp, hbuild⟩ := TableMod.resolveTables_mem h T hT
  obtain ⟨_, _, hF⟩ := TableMod.build_evolves hbuild
  have hcol : ∀ c ∈ T.columns, (∀ e ∈ c.foreign_keys, e.type = c.type) ∧
      (∀ e ∈ c.ref_keys, e.type = c.type) := by
    intro c hc
    obtain ⟨c₀, hc₀, hev⟩ := forall2_mem_right hF hc
    obtain ⟨s, hs, rfl⟩ := TableMod.mem_freshColumns hc₀
    obtain ⟨_, _, _, ht, _, _, hbkf, hbkr⟩ := hev
    constructor
    · intro e he
      rcases hbkf e he with h0 | ⟨_, hty⟩
      · cases h0
      · rw [hty, ht]
    · intro e he
      rcases hbkr e he with h0 | ⟨_, hty⟩
      · cases h0
      · rw [hty, ht]
  refine ⟨hcol, ?_, ?_⟩
  · intro e he
    obtain ⟨c, hc, hec⟩ := TableMod.build_tfks hbuild e he
    exact ⟨c, hc, hec, (hcol c hc).1 e hec⟩
  · intro e he
    obtain ⟨c, hc, hec⟩ := TableMod.build_trefs hbuild e he
    exact ⟨c, hc, hec, (hcol c hc).2 e hec⟩

/-- C9 witness: the property at the `Album` table of the resolved demo
schema. -/
theorem c9_key_entries_carry_local_type_witness :
    (∀ c ∈ (⟨"public", "Album",
        [⟨"public", "Album", "AlbumId", "INTEGER", [], []⟩,
         ⟨"public", "Album", "ArtistId", "INTEGER",
          [⟨"public", "Artist", "ArtistId", "INTEGER"⟩], []⟩],
        [⟨"public", "Artist", "ArtistId", "INTEGER"⟩], []⟩ :
          TableMod.Table).columns,
      (∀ e ∈ c.foreign_keys, e.type = c.type) ∧
        (∀ e ∈ c.ref_keys, e.type = c.type)) ∧
    (∀ e ∈ (⟨"public", "Album",
        [⟨"public", "Album", "AlbumId", "INTEGER", [], []⟩,
         ⟨"public", "Album", "ArtistId", "INTEGER",
          [⟨"public", "Artist", "ArtistId", "INTEGER"⟩], []⟩],
        [⟨"public", "Artist", "ArtistId", "INTEGER"⟩], []⟩ :
          TableMod.Table).foreign_keys,
      ∃ c ∈ (⟨"public", "Album",
        [⟨"public", "Album", "AlbumId", "INTEGER", [], []⟩,
         ⟨"public", "Album", "ArtistId", "INTEGER",
          [⟨"public", "Artist", "ArtistId", "INTEGER"⟩], []⟩],
        [⟨"public", "Artist", "ArtistId", "INTEGER"⟩], []⟩ :
          TableMod.Table).columns,
        e ∈ c.foreign_keys ∧ e.type = c.type) ∧
    (∀ e ∈ (⟨"public", "Album",
        [⟨"public", "Album", "AlbumId", "INTEGER", [], []⟩,
         ⟨"public", "Album", "ArtistId", "INTEGER",
          [⟨"public", "Artist", "ArtistId", "INTEGER"⟩], []⟩],
        [⟨"public", "Artist", "ArtistId", "INTEGER"⟩], []⟩ :
          TableMod.Table).ref_keys,
      ∃ c ∈ (⟨"public", "Album",
        [⟨"public", "Album", "AlbumId", "INTEGER", [], []⟩,
         ⟨"public", "Album", "ArtistId", "INTEGER",
          [⟨"public", "Artist", "ArtistId", "INTEGER"⟩], []⟩],
        [⟨"public", "Artist", "ArtistId", "INTEGER"⟩], []⟩ :
          TableMod.Table).columns,
        e ∈ c.ref_keys ∧ e.type = c.type) :=
  c9_key_entries_carry_local_type TableMod.tmStore TableMod.tmTables
    TableMod.tmSnap rfl
    ⟨"public", "Album",
      [⟨"public", "Album", "AlbumId", "INTEGER", [], []⟩,
       ⟨"public", "Album", "ArtistId", "INTEGER",
        [⟨"public", "Artist", "ArtistId", "INTEGER"⟩], []⟩],
      [⟨"public", "Artist", "ArtistId", "INTEGER"⟩], []⟩ (by decide)
